import Mathlib

/-!
Verification development for the audit subsystem of the matt-stack CLI.

The definitions below shallowly embed the Python source of
`src/matt_stack/auditors/` and `src/matt_stack/parsers/`:
strings become `List Char`, Python dataclasses become structures,
regex scans become explicit character-level matchers, and the
filesystem / subprocess / network boundaries become explicit inputs.
-/

namespace MattStack

/-- Convert a string literal to the character-list representation used
throughout this development. -/
def s (x : String) : List Char := x.toList

abbrev Str := List Char

/-! ## Character classes (ASCII fragment of Python's `\s`, `\w`, case maps) -/

def isWs (c : Char) : Bool :=
  c = ' ' || c = '\t' || c = '\n' || c = '\r' || c = '\x0b' || c = '\x0c'

def isLowerA (c : Char) : Bool := 97 ≤ c.toNat && c.toNat ≤ 122

def isUpperA (c : Char) : Bool := 65 ≤ c.toNat && c.toNat ≤ 90

def isDigitA (c : Char) : Bool := 48 ≤ c.toNat && c.toNat ≤ 57

def isWordChar (c : Char) : Bool := isLowerA c || isUpperA c || isDigitA c || c = '_'

def toUpperA (c : Char) : Char := if isLowerA c then Char.ofNat (c.toNat - 32) else c

def toLowerA (c : Char) : Char := if isUpperA c then Char.ofNat (c.toNat + 32) else c

/-! ## Core data model (`auditors/base.py`) -/

/-- `Severity` enum from `auditors/base.py`: ERROR / WARNING / INFO. -/
inductive Severity
  | error
  | warning
  | info
deriving DecidableEq, Repr

/-- The `str` value of a `Severity` member. -/
def Severity.value : Severity → Str
  | .error => s "error"
  | .warning => s "warning"
  | .info => s "info"

/-- `AuditType` enum exactly as defined in `auditors/base.py` (four members). -/
inductive AuditType
  | types
  | quality
  | endpoints
  | tests
deriving DecidableEq, Repr

/-- The `str` value of an `AuditType` member. -/
def AuditType.value : AuditType → Str
  | .types => s "types"
  | .quality => s "quality"
  | .endpoints => s "endpoints"
  | .tests => s "tests"

/-- All members of the `AuditType` enum, in declaration order. -/
def auditTypeMembers : List AuditType := [.types, .quality, .endpoints, .tests]

/-- The string values of all `AuditType` members. -/
def auditTypeValues : List Str := auditTypeMembers.map AuditType.value

/-- Category strings each auditor class stamps on its findings
(`audit_type = AuditType.X` class attributes, and the tests'
expectations for the dependency and vulnerability auditors). -/
def dependencyAuditorCategory : Str := s "dependencies"

def vulnerabilityAuditorCategory : Str := s "vulnerabilities"

/-- `AuditFinding` dataclass from `auditors/base.py`.  The category is
embedded as the `str` value of the stamped enum member (the `AuditType`
enum itself lacks the members the dependency and vulnerability auditors
reference, see `auditTypeValues`). -/
structure AuditFinding where
  category : Str
  severity : Severity
  file : Str
  line : Nat
  message : Str
  suggestion : Str
deriving DecidableEq, Repr

/-- `AuditReport` dataclass from `auditors/base.py`. -/
structure AuditReport where
  findings : List AuditFinding
  auditorsRun : List Str
deriving Repr

/-- `AuditReport.error_count`. -/
def AuditReport.errorCount (r : AuditReport) : Nat :=
  (r.findings.filter (fun f => f.severity = Severity.error)).length

/-- `AuditReport.warning_count`. -/
def AuditReport.warningCount (r : AuditReport) : Nat :=
  (r.findings.filter (fun f => f.severity = Severity.warning)).length

/-- `AuditReport.info_count`. -/
def AuditReport.infoCount (r : AuditReport) : Nat :=
  (r.findings.filter (fun f => f.severity = Severity.info)).length

/-- The `summary` object of `AuditReport.to_dict()`. -/
structure ReportSummary where
  errors : Nat
  warnings : Nat
  info : Nat
  total : Nat
deriving DecidableEq, Repr

/-- The summary part of `AuditReport.to_dict()`: counts are recomputed
from the findings list at serialization time. -/
def AuditReport.toDictSummary (r : AuditReport) : ReportSummary :=
  { errors := r.errorCount
    warnings := r.warningCount
    info := r.infoCount
    total := r.findings.length }

/-! ## snake_case ↔ camelCase (`auditors/types.py`) -/

/-- `snake_to_camel` from `auditors/types.py`:
`SNAKE_RE = re.compile(r"_([a-z])")` substituted by the upper-cased
captured letter.  `re.sub` scans left to right without overlap; an
underscore not followed by a lowercase letter is left in place and the
scan resumes at the next character. -/
def snake_to_camel : Str → Str
  | [] => []
  | c :: rest =>
    if c = '_' then
      match rest with
      | d :: rest' =>
        if isLowerA d then toUpperA d :: snake_to_camel rest'
        else '_' :: snake_to_camel (d :: rest')
      | [] => ['_']
    else c :: snake_to_camel rest

/-- The insertion pass of `camel_to_snake`: `re.sub(r"([A-Z])", r"_\1", name)`
prefixes every uppercase letter with an underscore. -/
def underscoreUppers : Str → Str
  | [] => []
  | c :: rest => if isUpperA c then '_' :: c :: underscoreUppers rest
                 else c :: underscoreUppers rest

/-- `camel_to_snake` from `auditors/types.py`: insert `_` before every
uppercase letter, lowercase the result, strip leading underscores. -/
def camel_to_snake (name : Str) : Str :=
  ((underscoreUppers name).map toLowerA).dropWhile (fun c => c = '_')

/-- A character allowed in the round-trip claim's identifier class:
lowercase ASCII letter, digit, or underscore. -/
def snakeChar (c : Char) : Bool := isLowerA c || isDigitA c || c = '_'

/-- Every underscore is immediately followed by a lowercase letter or a
digit (so no trailing underscore and no doubled underscore). -/
def underscoresOk : Str → Bool
  | [] => true
  | c :: rest =>
    if c = '_' then
      match rest with
      | d :: _ => (isLowerA d || isDigitA d) && underscoresOk rest
      | [] => false
    else underscoresOk rest

/-! ### Character-map lemmas -/

theorem toNat_ofNat_lt (n : Nat) (h : n < 55296) : (Char.ofNat n).toNat = n := by
  have hv : Nat.isValidChar n := Or.inl h
  simp only [Char.ofNat, hv, dite_true]
  rfl

theorem lower_bounds {c : Char} (h : isLowerA c = true) :
    97 ≤ c.toNat ∧ c.toNat ≤ 122 := by
  simpa [isLowerA] using h

theorem isUpperA_toUpperA {c : Char} (h : isLowerA c = true) :
    isUpperA (toUpperA c) = true := by
  obtain ⟨h1, h2⟩ := lower_bounds h
  have ht : (Char.ofNat (c.toNat - 32)).toNat = c.toNat - 32 :=
    toNat_ofNat_lt _ (by omega)
  simp only [toUpperA, h, if_true, isUpperA, ht, Bool.and_eq_true, decide_eq_true_eq]
  omega

theorem toLowerA_toUpperA {c : Char} (h : isLowerA c = true) :
    toLowerA (toUpperA c) = c := by
  obtain ⟨h1, h2⟩ := lower_bounds h
  have hup := isUpperA_toUpperA h
  have ht : (Char.ofNat (c.toNat - 32)).toNat = c.toNat - 32 :=
    toNat_ofNat_lt _ (by omega)
  simp only [toUpperA, h, if_true] at hup ⊢
  simp only [toLowerA, hup, if_true, ht]
  have hcn : c.toNat - 32 + 32 = c.toNat := by omega
  rw [hcn]
  exact Char.ofNat_toNat c

theorem toLowerA_not_upper {c : Char} (h : isUpperA c = false) : toLowerA c = c := by
  simp [toLowerA, h]

theorem not_upper_of_lower {c : Char} (h : isLowerA c = true) : isUpperA c = false := by
  obtain ⟨h1, h2⟩ := lower_bounds h
  simp only [isUpperA, Bool.and_eq_false_iff, decide_eq_false_iff_not]
  right
  omega

theorem not_upper_of_digit {c : Char} (h : isDigitA c = true) : isUpperA c = false := by
  simp only [isDigitA, Bool.and_eq_true, decide_eq_true_eq] at h
  simp only [isUpperA, Bool.and_eq_false_iff, decide_eq_false_iff_not]
  left
  omega

theorem underscore_not_upper : isUpperA '_' = false := by decide

/-! ### Round-trip lemmas -/

theorem underscoresOk_cons {c : Char} {rest : Str} (hc : ¬ c = '_')
    (h : underscoresOk (c :: rest) = true) : underscoresOk rest = true := by
  rw [underscoresOk.eq_def] at h
  simp only [hc, if_false] at h
  exact h

theorem underscoresOk_underscore {c : Char} {rest : Str}
    (h : underscoresOk ('_' :: c :: rest) = true) :
    (isLowerA c || isDigitA c) = true ∧ underscoresOk (c :: rest) = true := by
  rw [underscoresOk.eq_def] at h
  simp only [reduceIte, Bool.and_eq_true] at h
  exact h

theorem snake_to_camel_underscore_lower {d : Char} {rest' : Str}
    (hd : isLowerA d = true) :
    snake_to_camel ('_' :: d :: rest') = toUpperA d :: snake_to_camel rest' := by
  rw [snake_to_camel.eq_def]
  simp [hd]

theorem snake_to_camel_underscore_other {d : Char} {rest' : Str}
    (hd : isLowerA d = false) :
    snake_to_camel ('_' :: d :: rest') = '_' :: snake_to_camel (d :: rest') := by
  rw [snake_to_camel.eq_def]
  simp [hd]

theorem snake_to_camel_cons_ne {c : Char} {rest : Str} (hc : ¬ c = '_') :
    snake_to_camel (c :: rest) = c :: snake_to_camel rest := by
  rw [snake_to_camel.eq_def]
  simp [hc]

/-- The middle of the round trip, before the final `lstrip("_")`. -/
theorem mid_round_trip (x : Str)
    (hall : x.all snakeChar = true) (hund : underscoresOk x = true) :
    (underscoreUppers (snake_to_camel x)).map toLowerA = x := by
  induction x using snake_to_camel.induct with
  | case1 => simp [snake_to_camel, underscoreUppers]
  | case2 d rest' hd ih =>
    -- '_' :: d :: rest' with d lowercase
    have hx := underscoresOk_underscore hund
    have hdall : (d :: rest').all snakeChar = true := by
      simp only [List.all_cons, Bool.and_eq_true] at hall ⊢
      exact hall.2
    have hrall : rest'.all snakeChar = true := by
      simp only [List.all_cons, Bool.and_eq_true] at hdall
      exact hdall.2
    have hdu : ¬ d = '_' := by
      intro hdeq
      rw [hdeq] at hd
      exact absurd hd (by decide)
    have hrest : underscoresOk rest' = true := underscoresOk_cons hdu hx.2
    rw [snake_to_camel_underscore_lower hd]
    rw [underscoreUppers]
    simp only [isUpperA_toUpperA hd, if_true, List.map_cons]
    rw [toLowerA_toUpperA hd, ih hrall hrest]
    rw [toLowerA_not_upper underscore_not_upper]
  | case3 d rest' hd ih =>
    -- '_' :: d :: rest' with d not lowercase (hence a digit)
    have hd' : isLowerA d = false := by
      cases hq : isLowerA d with
      | true => exact absurd hq hd
      | false => rfl
    have hx := underscoresOk_underscore hund
    have hdall : (d :: rest').all snakeChar = true := by
      simp only [List.all_cons, Bool.and_eq_true] at hall ⊢
      exact hall.2
    rw [snake_to_camel_underscore_other hd']
    rw [underscoreUppers]
    simp only [underscore_not_upper, Bool.false_eq_true, if_false, List.map_cons]
    rw [ih hdall hx.2]
    rfl
  | case4 =>
    -- ['_'] : excluded by underscoresOk
    exact absurd hund (by simp [underscoresOk.eq_def])
  | case5 c rest hc ih =>
    -- c ≠ '_'
    have hall' : rest.all snakeChar = true := by
      simp only [List.all_cons, Bool.and_eq_true] at hall
      exact hall.2
    have hcsnake : snakeChar c = true := by
      simp only [List.all_cons, Bool.and_eq_true] at hall
      exact hall.1
    have hnotup : isUpperA c = false := by
      simp only [snakeChar, Bool.or_eq_true] at hcsnake
      rcases hcsnake with h | h
      · rcases h with h | h
        · exact not_upper_of_lower h
        · exact not_upper_of_digit h
      · simp only [decide_eq_true_eq] at h
        exact absurd h hc
    have hrest : underscoresOk rest = true := underscoresOk_cons hc hund
    rw [snake_to_camel_cons_ne hc]
    rw [underscoreUppers]
    simp only [hnotup, Bool.false_eq_true, if_false, List.map_cons]
    rw [toLowerA_not_upper hnotup, ih hall' hrest]

/-! ## Theorems for the claims settled so far -/

/-- C1: the spec claims the `AuditType` enumeration has all six members
{types, quality, endpoints, tests, dependencies, vulnerabilities}; the
enum in `auditors/base.py` has exactly the four members
{types, quality, endpoints, tests}, so the categories the dependency and
vulnerability auditors stamp (`AuditType.DEPENDENCIES`,
`AuditType.VULNERABILITIES`, asserted to exist by the repository's own
test suite) are not members of the enum. -/
theorem c1_audit_type_vocabulary_incomplete :
    auditTypeValues = [s "types", s "quality", s "endpoints", s "tests"] ∧
    dependencyAuditorCategory ∉ auditTypeValues ∧
    vulnerabilityAuditorCategory ∉ auditTypeValues := by
  refine ⟨rfl, ?_, ?_⟩ <;> decide

/-- C10: for every `AuditReport`, the three severity counts partition the
findings list (`error_count + warning_count + info_count == len(findings)`),
and `to_dict()`'s summary reports exactly the freshly recomputed counts
with `total == len(findings)`. -/
theorem c10_report_counts_partition (r : AuditReport) :
    r.errorCount + r.warningCount + r.infoCount = r.findings.length ∧
    r.toDictSummary =
      { errors := r.errorCount, warnings := r.warningCount,
        info := r.infoCount, total := r.findings.length } := by
  refine ⟨?_, rfl⟩
  unfold AuditReport.errorCount AuditReport.warningCount AuditReport.infoCount
  induction r.findings with
  | nil => rfl
  | cons f t ih =>
    cases hsev : f.severity <;>
      simp [List.filter_cons, hsev, ih] <;> omega

/-- C8: for every identifier consisting only of lowercase letters, digits
and underscores, with no leading underscore and every underscore
immediately followed by a lowercase letter or digit,
`camel_to_snake (snake_to_camel x) = x`. -/
theorem c8_snake_camel_round_trip (x : Str)
    (hall : x.all snakeChar = true)
    (hund : underscoresOk x = true)
    (hhead : x.head? ≠ some '_') :
    camel_to_snake (snake_to_camel x) = x := by
  unfold camel_to_snake
  rw [mid_round_trip x hall hund]
  cases x with
  | nil => rfl
  | cons c t =>
    have hc : ¬ c = '_' := by
      intro hceq
      exact hhead (by rw [hceq]; rfl)
    rw [List.dropWhile_cons]
    simp [hc]

/-- Witness for C8 at the concrete identifier `user_name2`. -/
theorem c8_snake_camel_round_trip_witness :
    camel_to_snake (snake_to_camel (s "user_name2")) = s "user_name2" :=
  c8_snake_camel_round_trip (s "user_name2") (by decide) (by decide) (by decide)

/-! ## Brace-block extraction (`parsers/typescript_types.py` vs `parsers/utils.py`) -/

/-- Scan for the closing brace of `_extract_block` in
`parsers/typescript_types.py` (the same code is duplicated in
`parsers/zod_schemas.py`): a plain depth counter with no awareness of
string literals.  Returns the offset (relative to the scan start) of the
brace at which the depth returns to zero, if any. -/
def findCloseNaive : Str → Int → Option Nat
  | [], _ => none
  | c :: rest, depth =>
    if c = '{' then (findCloseNaive rest (depth + 1)).map (· + 1)
    else if c = '}' then
      if depth - 1 = 0 then some 0
      else (findCloseNaive rest (depth - 1)).map (· + 1)
    else (findCloseNaive rest depth).map (· + 1)

/-- `_extract_block(text, open_pos)` from `parsers/typescript_types.py`:
returns `text[open_pos+1 : i]` for the first `i` at which the running
brace depth returns to zero, or `text[open_pos+1:]` if it never does. -/
def tsExtractBlock (text : Str) (openPos : Nat) : Str :=
  match findCloseNaive (text.drop openPos) 0 with
  | some i => (text.drop (openPos + 1)).take (i - 1)
  | none => text.drop (openPos + 1)

/-- Scan for the closing brace of `extract_block` in `parsers/utils.py`:
the depth counter skips over content of single-, double- and
backtick-quoted string literals, with `\\`-escape handling. -/
def findCloseAware : Str → Int → Option Char → Option Nat
  | [], _, _ => none
  | c :: rest, depth, some q =>
    if c = '\\' then
      match rest with
      | [] => none
      | _ :: rest' => (findCloseAware rest' depth (some q)).map (· + 2)
    else if c = q then (findCloseAware rest depth none).map (· + 1)
    else (findCloseAware rest depth (some q)).map (· + 1)
  | c :: rest, depth, none =>
    if c = '\'' ∨ c = '"' ∨ c = '`' then
      (findCloseAware rest depth (some c)).map (· + 1)
    else if c = '{' then (findCloseAware rest (depth + 1) none).map (· + 1)
    else if c = '}' then
      if depth - 1 = 0 then some 0
      else (findCloseAware rest (depth - 1) none).map (· + 1)
    else (findCloseAware rest depth none).map (· + 1)

/-- `extract_block(text, open_pos)` from `parsers/utils.py`:
string-literal-aware depth-counted brace matching. -/
def extract_block (text : Str) (openPos : Nat) : Str :=
  match findCloseAware (text.drop openPos) 0 none with
  | some i => (text.drop (openPos + 1)).take (i - 1)
  | none => text.drop (openPos + 1)

/-- A quote character, as recognized by `extract_block`'s in-string
tracking. -/
def isQuote (c : Char) : Bool := c = '\'' || c = '"' || c = '`'

theorem findClose_agree (cs : Str) (depth : Int)
    (hq : ∀ c ∈ cs, isQuote c = false) :
    findCloseNaive cs depth = findCloseAware cs depth none := by
  induction cs generalizing depth with
  | nil => simp [findCloseNaive, findCloseAware]
  | cons c rest ih =>
    have hc : isQuote c = false := hq c (List.mem_cons_self c rest)
    have hrest : ∀ d ∈ rest, isQuote d = false := fun d hd =>
      hq d (List.mem_cons_of_mem c hd)
    have hnotq : ¬ (c = '\'' ∨ c = '"' ∨ c = '`') := by
      rintro (h | h | h) <;> simp [isQuote, h] at hc
    simp only [findCloseNaive, findCloseAware, if_neg hnotq]
    split_ifs with hbo hbc hz
    · rw [ih _ hrest]
    · rfl
    · rw [ih _ hrest]
    · rw [ih _ hrest]

/-- The TypeScript source text of the C7 counterexample: the interface
body contains a `}` inside a double-quoted string literal. -/
def c7text : Str := s "interface A \x7b\n  x: \"a\x7db\";\n  y: number;\n\x7d"

/-- Counterexample for C7: the interface parser's own `_extract_block`
(`parsers/typescript_types.py`) is not string-literal-aware; at the
interface's opening brace (offset 12) it terminates at the `}` inside
the quoted string `"a}b"` and returns only the text up to that brace,
not the text up to the structurally matching closing brace (which the
string-aware `extract_block` of `parsers/utils.py` returns). -/
theorem c7_counterexample :
    c7text.get? 12 = some '{' ∧
    tsExtractBlock c7text 12 = s "\n  x: \"a" ∧
    extract_block c7text 12 = s "\n  x: \"a\x7db\";\n  y: number;\n" ∧
    tsExtractBlock c7text 12 ≠ extract_block c7text 12 := by
  refine ⟨rfl, by decide, by decide, by decide⟩

/-- C7 (as amended): the interface parser's body extraction is a plain
depth counter that ignores string literals.  It agrees with the
string-aware shared `extract_block` of `parsers/utils.py` on every text
containing no quote character, and on a text whose body has a `}` inside
a string literal it terminates at that brace (see the counterexample). -/
theorem c7_extract_block_not_string_aware (text : Str) (openPos : Nat)
    (hq : ∀ c ∈ text, isQuote c = false) :
    tsExtractBlock text openPos = extract_block text openPos := by
  unfold tsExtractBlock extract_block
  rw [findClose_agree]
  intro c hc
  exact hq c (List.mem_of_mem_drop hc)

/-- Witness for C7's amended theorem on a quote-free interface body. -/
theorem c7_extract_block_not_string_aware_witness :
    tsExtractBlock (s "{ a: { b: 1 } }") 0 = extract_block (s "{ a: { b: 1 } }") 0 :=
  c7_extract_block_not_string_aware (s "{ a: { b: 1 } }") 0 (by decide)

/-! ## Code-quality auditor: debug statements and auto-fix
(`auditors/quality.py`) -/

def lstripWs (x : Str) : Str := x.dropWhile isWs

def rstripWs (x : Str) : Str := (x.reverse.dropWhile isWs).reverse

/-- Python `str.strip()`. -/
def stripWs (x : Str) : Str := rstripWs (lstripWs x)

/-- Literal word then `\s*` then `(`: the shape of `print\s*\(`,
`breakpoint\s*\(` and `console.<m>\s*\(`. -/
def wordThenParen (r w : Str) : Bool :=
  w.isPrefixOf r && ((r.drop w.length).dropWhile isWs).head? == some '('

/-- `import\s+pdb`. -/
def importPdbTail (r : Str) : Bool :=
  (s "import").isPrefixOf r &&
  (match r.drop 6 with
   | [] => false
   | c :: rest => isWs c && (s "pdb").isPrefixOf ((c :: rest).dropWhile isWs))

/-- `PY_DEBUG_RE.match(line)` from `auditors/quality.py`:
`^\s*(print\s*\(|breakpoint\s*\(|import\s+pdb)` anchored at the start of
a single (newline-free) line. -/
def matchPyDebug (line : Str) : Bool :=
  let r := lstripWs line
  wordThenParen r (s "print") || wordThenParen r (s "breakpoint") || importPdbTail r

/-- `console\.(log|debug|warn|info)\s*\(`. -/
def consoleCallTail (r : Str) : Bool :=
  (s "console.").isPrefixOf r &&
  (let t := r.drop 8
   wordThenParen t (s "log") || wordThenParen t (s "debug") ||
   wordThenParen t (s "warn") || wordThenParen t (s "info"))

/-- `debugger\b`. -/
def debuggerTail (r : Str) : Bool :=
  (s "debugger").isPrefixOf r &&
  (match r.drop 8 with
   | [] => true
   | c :: _ => !(isWordChar c))

/-- `JS_DEBUG_RE.match(line)` from `auditors/quality.py`:
`^\s*(console\.(log|debug|warn|info)\s*\(|debugger\b)`. -/
def matchJsDebug (line : Str) : Bool :=
  let r := lstripWs line
  consoleCallTail r || debuggerTail r

/-- The debug pattern selected by the scanned file's language family. -/
def matchDebug (isPython : Bool) (line : Str) : Bool :=
  if isPython then matchPyDebug line else matchJsDebug line

/-- The WARNING finding `_handle_debug` emits for one debug line:
`f"Debug statement: {line.strip()[:60]}"`. -/
def handleDebugFinding (relPath : Str) (lineNum : Nat) (line : Str)
    (isPython : Bool) : AuditFinding :=
  { category := s "quality"
    severity := .warning
    file := relPath
    line := lineNum
    message := s "Debug statement: " ++ (stripWs line).take 60
    suggestion := s "Remove " ++ (if isPython then s "print()" else s "console.log()")
      ++ s " before shipping" }

/-- The per-line loop of `_scan_file` restricted to its debug-statement
state: each matching line yields a finding via `_handle_debug`, and with
the fix flag the matched line is blanked (`lines[line_num - 1] = ""`) and
the fix counter incremented.  Only the current line is ever blanked, so
later iterations see their original lines. -/
def debugScan (relPath : Str) (isPython fix : Bool) :
    List Str → Nat → List Str × Nat × List AuditFinding
  | [], _ => ([], 0, [])
  | l :: rest, i =>
    let r := debugScan relPath isPython fix rest (i + 1)
    if matchDebug isPython l then
      ((if fix then [] else l) :: r.1, (if fix then 1 else 0) + r.2.1,
        handleDebugFinding relPath i l isPython :: r.2.2)
    else (l :: r.1, r.2.1, r.2.2)

/-- The debug-statement slice of `CodeQualityAuditor._scan_file` /
`_handle_debug` (`auditors/quality.py`): the text is split on newlines,
lines are scanned in order (`enumerate(lines, 1)`); with the fix flag set
the file is rewritten exactly once after the loop — iff some line matched
(`file_modified`) — with the blanked lines joined by `"\n"`.  The TODO /
mock-data / credential / stub checks of `_scan_file` read the same
unmodified line values and do not touch this state, so they are not part
of this slice.  Returns (content written, fix-count delta, debug
findings). -/
def scanFileDebug (relPath : Str) (isPython isTest fix : Bool) (text : Str) :
    Option Str × Nat × List AuditFinding :=
  if isTest then (none, 0, [])
  else
    let r := debugScan relPath isPython fix (text.splitOn '\n') 1
    (if fix && !r.2.2.isEmpty then some (List.intercalate (s "\n") r.1) else none,
      r.2.1, r.2.2)

/-! ### Auto-fix lemmas -/

theorem debugScan_newLines (relPath : Str) (isPython : Bool) (ls : List Str) (i : Nat) :
    (debugScan relPath isPython true ls i).1 =
      ls.map (fun l => if matchDebug isPython l then [] else l) := by
  induction ls generalizing i with
  | nil => rfl
  | cons l rest ih =>
    rw [debugScan]
    by_cases h : matchDebug isPython l
    · simp [h, ih]
    · simp [h, ih]

theorem debugScan_fixCount (relPath : Str) (isPython : Bool) (ls : List Str) (i : Nat) :
    (debugScan relPath isPython true ls i).2.1 =
      ls.countP (matchDebug isPython) := by
  induction ls generalizing i with
  | nil => rfl
  | cons l rest ih =>
    rw [debugScan]
    by_cases h : matchDebug isPython l
    · simp [h, ih, List.countP_cons]; omega
    · simp [h, ih, List.countP_cons]

theorem debugScan_findings_length (relPath : Str) (isPython fix : Bool)
    (ls : List Str) (i : Nat) :
    (debugScan relPath isPython fix ls i).2.2.length =
      ls.countP (matchDebug isPython) := by
  induction ls generalizing i with
  | nil => rfl
  | cons l rest ih =>
    rw [debugScan]
    by_cases h : matchDebug isPython l
    · simp [h, ih, List.countP_cons]
    · simp [h, ih, List.countP_cons]

theorem splitOn_sep_not_mem {α : Type} [DecidableEq α] (sep : α) (xs : List α) :
    ∀ l ∈ xs.splitOn sep, sep ∉ l := by
  unfold List.splitOn
  induction xs with
  | nil =>
    intro l hl
    simp only [List.splitOnP_nil, List.mem_singleton] at hl
    subst hl
    simp
  | cons x t ih =>
    intro l hl
    rw [List.splitOnP_cons] at hl
    by_cases hx : x = sep
    · simp only [hx, beq_self_eq_true, if_pos] at hl
      rcases List.mem_cons.mp hl with h | h
      · subst h; simp
      · exact ih l h
    · have hbeq : (x == sep) = false := beq_false_of_ne hx
      simp only [hbeq, Bool.false_eq_true, if_false] at hl
      rcases hsp : t.splitOnP (· == sep) with _ | ⟨h0, t0⟩
      · exact absurd hsp (List.splitOnP_ne_nil _ t)
      · rw [hsp] at hl
        simp only [List.modifyHead] at hl
        rcases List.mem_cons.mp hl with h | h
        · subst h
          intro hm
          rcases List.mem_cons.mp hm with h' | h'
          · exact hx h'.symm
          · exact ih h0 (by rw [hsp]; exact List.mem_cons_self _ _) h'
        · exact ih l (by rw [hsp]; exact List.mem_cons_of_mem _ h)

theorem matchDebug_nil (isPython : Bool) : matchDebug isPython [] = false := by
  cases isPython <;> decide

/-- C4: for every non-test source file whose text contains `N ≥ 1` lines
matching the language family's debug pattern, one auto-fix run of the
quality auditor's scan blanks exactly the matched lines in memory,
rewrites the file exactly once with the joined result, reports a
fix-count of `N`, and the rewritten file contains zero matches of the
debug pattern. -/
theorem c4_quality_autofix_removes_debug (relPath text : Str) (isPython : Bool)
    (hN : 0 < (text.splitOn '\n').countP (matchDebug isPython)) :
    (scanFileDebug relPath isPython false true text).2.1 =
      (text.splitOn '\n').countP (matchDebug isPython) ∧
    (scanFileDebug relPath isPython false true text).1 =
      some (List.intercalate (s "\n")
        ((text.splitOn '\n').map (fun l => if matchDebug isPython l then [] else l))) ∧
    ∀ t, (scanFileDebug relPath isPython false true text).1 = some t →
      (t.splitOn '\n').countP (matchDebug isPython) = 0 := by
  have hlen := debugScan_findings_length relPath isPython true (text.splitOn '\n') 1
  have hne : (debugScan relPath isPython true (text.splitOn '\n') 1).2.2.isEmpty = false := by
    rcases hq : (debugScan relPath isPython true (text.splitOn '\n') 1).2.2 with _ | ⟨a, t⟩
    · rw [hq] at hlen
      simp only [List.length_nil] at hlen
      omega
    · rfl
  have hnew := debugScan_newLines relPath isPython (text.splitOn '\n') 1
  have hcount := debugScan_fixCount relPath isPython (text.splitOn '\n') 1
  have hdef : scanFileDebug relPath isPython false true text =
      (if true && !(debugScan relPath isPython true (text.splitOn '\n') 1).2.2.isEmpty
          then some (List.intercalate (s "\n")
            (debugScan relPath isPython true (text.splitOn '\n') 1).1)
          else none,
        (debugScan relPath isPython true (text.splitOn '\n') 1).2.1,
        (debugScan relPath isPython true (text.splitOn '\n') 1).2.2) := rfl
  refine ⟨?_, ?_, ?_⟩
  · rw [hdef]
    exact hcount
  · rw [hdef]
    simp only [hne, Bool.not_false, Bool.and_true, if_pos]
    rw [hnew]
  · intro t ht
    rw [hdef] at ht
    simp only [hne, Bool.not_false, Bool.and_true, if_pos] at ht
    have htval : t = List.intercalate (s "\n")
        ((text.splitOn '\n').map (fun l => if matchDebug isPython l then [] else l)) := by
      rw [hnew] at ht
      simp only [Option.some_inj] at ht
      exact ht.symm
    subst htval
    have hnm : ∀ l ∈ (text.splitOn '\n').map
        (fun l => if matchDebug isPython l then [] else l), '\n' ∉ l := by
      intro l hl
      rcases List.mem_map.mp hl with ⟨l0, hl0, rfl⟩
      by_cases h : matchDebug isPython l0
      · simp [h]
      · simpa [h] using splitOn_sep_not_mem '\n' text l0 hl0
    have hnil : (text.splitOn '\n').map
        (fun l => if matchDebug isPython l then [] else l) ≠ [] := by
      intro hc
      have := List.splitOnP_ne_nil (fun a => a == '\n') text
      simp only [List.map_eq_nil_iff] at hc
      exact this hc
    have hround := List.splitOn_intercalate _ '\n' hnm hnil
    rw [show List.intercalate (s "\n") = List.intercalate ['\n'] from rfl] at *
    rw [hround]
    rw [List.countP_eq_zero]
    intro l hl
    rcases List.mem_map.mp hl with ⟨l0, hl0, rfl⟩
    by_cases h : matchDebug isPython l0
    · simp [h, matchDebug_nil]
    · simp [h]

/-- Witness for C4: a Python file with three `print(...)` lines; all are
blanked, the fix-count is 3, and no debug match remains. -/
theorem c4_quality_autofix_removes_debug_witness :
    0 < (((s "import os\nprint(1)\nx = 1\nprint(2)\n  print(3)\n").splitOn '\n').countP
        (matchDebug true)) ∧
    (scanFileDebug (s "app.py") true false true
        (s "import os\nprint(1)\nx = 1\nprint(2)\n  print(3)\n")).2.1 = 3 := by
  constructor
  · decide
  · have h := c4_quality_autofix_removes_debug (s "app.py")
      (s "import os\nprint(1)\nx = 1\nprint(2)\n  print(3)\n") true (by decide)
    rw [h.1]
    decide

/-! ## Dependency-manifest parser (`parsers/dependencies.py`) -/

/-- `Dependency` dataclass (the `python_version` / `node_version` manifest
fields are not referenced by any claim or embedded check and are omitted). -/
structure Dependency where
  name : Str
  version_constraint : Str
  source_file : Str
  line : Nat
  dev : Bool
deriving DecidableEq, Repr

/-- `DependencyManifest` dataclass. -/
structure DependencyManifest where
  file : Str
  dependencies : List Dependency
deriving DecidableEq, Repr

/-- Offsets of the `\n` characters of a text. -/
def nlPositions (text : Str) : List Nat :=
  text.enum.filterMap (fun p => if p.2 = '\n' then some p.1 else none)

/-- The offsets at which a `re.MULTILINE` `^` matches: 0 and every
position following a newline, in ascending order. -/
def lineStarts (text : Str) : List Nat :=
  0 :: (nlPositions text).map (· + 1)

/-- The line beginning at offset `q` (up to the next newline or the end). -/
def lineAt (text : Str) (q : Nat) : Str :=
  (text.drop q).takeWhile (fun c => ¬ c = '\n')

/-- Last index of `c` in `l`. -/
def lastIdxOf (c : Char) (l : Str) : Option Nat :=
  match l.reverse.findIdx? (fun d => d = c) with
  | some i => some (l.length - 1 - i)
  | none => none

/-- Match `^<lit>\s*$` (MULTILINE) at line-start offset `q`, returning the
match END offset: the literal, then greedily as much whitespace as still
lets `$` match — i.e. up to the last newline inside the whitespace run,
or to the end of the text. -/
def matchHeaderEndAt (lit text : Str) (q : Nat) : Option Nat :=
  if lit.isPrefixOf (text.drop q) then
    let j := q + lit.length
    let run := ((text.drop j).takeWhile isWs).length
    if j + run = text.length then some (j + run)
    else match lastIdxOf '\n' ((text.drop j).take run) with
      | some i => some (j + i)
      | none => none
  else none

/-- `re.search` for `^<lit>\s*$`: the first line start where the header
matches, returning the match end offset (`section_match.end()`). -/
def findSectionHeaderEnd (lit text : Str) : Option Nat :=
  (lineStarts text).findSome? (matchHeaderEndAt lit text)

/-- Does the line starting at this offset match `_SECTION_RE`
(`^\[.*\]\s*$`)?  Equivalently: it begins with `[` and, after stripping
trailing whitespace, ends with `]` with at least the two brackets. -/
def isSectionHeaderLine (l : Str) : Bool :=
  let r := rstripWs l
  l.head? == some '[' && decide (2 ≤ r.length) && r.getLast? == some ']'

/-- `_SECTION_RE.search(text, start)`: the first line start at offset
`≥ start` whose line is a section header. -/
def findSectionStart (text : Str) (start : Nat) : Option Nat :=
  (lineStarts text).find? (fun q => decide (start ≤ q) && isSectionHeaderLine (lineAt text q))

/-- `_get_section_text(text, section_match)`: the text from the header
match's end to the next section header (or the end of the text). -/
def get_section_text (text : Str) (sectionEnd : Nat) : Str :=
  match findSectionStart text sectionEnd with
  | some q => (text.drop sectionEnd).take (q - sectionEnd)
  | none => text.drop sectionEnd

/-- Match `^<key>\s*=\s*\[` at line-start offset `p` of the section text. -/
def matchKeyAt (key sect : Str) (p : Nat) : Bool :=
  let r := sect.drop p
  key.isPrefixOf r &&
  (let t := (r.drop key.length).dropWhile isWs
   t.head? == some '=' && ((t.drop 1).dropWhile isWs).head? == some '[')

/-- `key_re.search(section_text)` for `_DEPS_KEY_RE` / `_DEV_DEPS_KEY_RE`:
first line start where the key matches (`key_match.start()`). -/
def findKeyStart (key sect : Str) : Option Nat :=
  (lineStarts sect).find? (matchKeyAt key sect)

/-- `text.find(c, start)`. -/
def findCharFrom (sect : Str) (c : Char) (start : Nat) : Option Nat :=
  match (sect.drop start).findIdx? (fun d => d = c) with
  | some i => some (start + i)
  | none => none

/-- The bracket-depth scan of `_extract_list_block`: offset (relative to
the scan start, which is the opening `[`) of the `]` at which the depth
returns to zero. -/
def findCloseSquare : Str → Int → Option Nat
  | [], _ => none
  | c :: rest, depth =>
    if c = '[' then (findCloseSquare rest (depth + 1)).map (· + 1)
    else if c = ']' then
      if depth - 1 = 0 then some 0
      else (findCloseSquare rest (depth - 1)).map (· + 1)
    else (findCloseSquare rest depth).map (· + 1)

/-- `_extract_list_block(text, start)`: find the first `[` at offset
`≥ start`, then return the content up to the depth-matching `]` (or to
the end), together with the bracket position. -/
def extract_list_block (sect : Str) (start : Nat) : Str × Nat :=
  match findCharFrom sect '[' start with
  | none => ([], start)
  | some bp =>
    match findCloseSquare (sect.drop bp) 0 with
    | some i => ((sect.drop (bp + 1)).take (i - 1), bp)
    | none => (sect.drop (bp + 1), bp)

/-- `_line_number_at_offset(text, offset)`: 1-based line number obtained
by counting newlines before the offset. -/
def line_number_at_offset (text : Str) (offset : Nat) : Nat :=
  (text.take offset).count '\n' + 1

/-- Strip all trailing commas (`str.rstrip(",")`). -/
def rstripComma (l : Str) : Str := (l.reverse.dropWhile (fun c => c = ',')).reverse

/-- First character class of the dependency-name regex
(`[a-zA-Z0-9]`). -/
def depNameFirst (c : Char) : Bool := isLowerA c || isUpperA c || isDigitA c

/-- Continuation character class of the dependency-name regex
(`[a-zA-Z0-9_.\\-]`). -/
def depNameChar (c : Char) : Bool :=
  isLowerA c || isUpperA c || isDigitA c || c = '_' || c = '.' || c = '\\' || c = '-'

/-- The name/constraint extraction of `_parse_dep_line`: strip, strip
trailing commas, require matching quotes, then match
`([a-zA-Z0-9][a-zA-Z0-9_.\\-]*)(.*)` and strip both groups, dropping a
bracketed extras suffix from the name. -/
def parseDepNameConstraint (line : Str) : Option (Str × Str) :=
  let l1 := rstripComma (stripWs line)
  if (l1.head? == some '"' && l1.getLast? == some '"') ||
      (l1.head? == some '\'' && l1.getLast? == some '\'') then
    match (l1.drop 1).dropLast with
    | [] => none
    | c :: rest =>
      if depNameFirst c then
        let name := stripWs (c :: rest.takeWhile depNameChar)
        let constraint := stripWs (rest.dropWhile depNameChar)
        let name' := if name.contains '[' then name.takeWhile (fun d => ¬ d = '[') else name
        some (name', constraint)
      else none
  else none

/-- `_parse_dep_line(line, source_file, line_num, dev)`. -/
def parse_dep_line (line sourceFile : Str) (lineNum : Nat) (dev : Bool) :
    Option Dependency :=
  (parseDepNameConstraint line).map (fun p =>
    { name := p.1, version_constraint := p.2, source_file := sourceFile,
      line := lineNum, dev := dev })

/-- The per-line loop of `_parse_deps_from_section`: enumerate the split
lines of the bracketed block, skip blank and comment lines, and parse
each entry with line number `base_line + i + 1`. -/
def parseDepLines (content sourceFile : Str) (baseLine : Nat) (dev : Bool) :
    List Dependency :=
  (content.splitOn '\n').enum.filterMap (fun p =>
    let st := stripWs p.2
    if st.isEmpty || st.head? == some '#' then none
    else parse_dep_line st sourceFile (baseLine + p.1 + 1) dev)

/-- `_parse_deps_from_section(text, section_match, key_re, source_file,
full_text, dev)`, with the section match represented by its end offset. -/
def parse_deps_from_section (fullText : Str) (sectionEnd : Nat) (key sourceFile : Str)
    (dev : Bool) : List Dependency :=
  let sect := get_section_text fullText sectionEnd
  match findKeyStart key sect with
  | none => []
  | some ks =>
    let eb := extract_list_block sect ks
    parseDepLines eb.1 sourceFile
      (line_number_at_offset fullText (sectionEnd + eb.2)) dev

/-- Match `^(\w+)\s*=\s*\[` at a line start of the optional-dependencies
section, returning the match end (the offset just past the `[`). -/
def matchOptKeyAt (sect : Str) (q : Nat) : Option Nat :=
  let r := sect.drop q
  let w := r.takeWhile isWordChar
  if w.isEmpty then none
  else
    let t := (r.drop w.length).dropWhile isWs
    if t.head? == some '=' then
      let u := (t.drop 1).dropWhile isWs
      if u.head? == some '[' then some (q + (r.length - u.length) + 1) else none
    else none

/-- `re.finditer(r"^(\w+)\s*=\s*\[", section_text, re.MULTILINE)`:
non-overlapping matches in order; the next scan resumes at the previous
match's end. -/
def collectOptKeys (sect : Str) : List Nat :=
  go (lineStarts sect) 0
where
  go : List Nat → Nat → List Nat
    | [], _ => []
    | q :: rest, minPos =>
      if minPos ≤ q then
        match matchOptKeyAt sect q with
        | some e => q :: go rest e
        | none => go rest minPos
      else go rest minPos

/-- The `[project.optional-dependencies]` branch of
`parse_pyproject_toml`: for each `name = [...]` key in the section,
extract the block and parse its lines with `dev=True`. -/
def parseOptDeps (text : Str) (sectEnd : Nat) (path : Str) : List Dependency :=
  let sect := get_section_text text sectEnd
  (collectOptKeys sect).flatMap (fun q =>
    let eb := extract_list_block sect q
    parseDepLines eb.1 path (line_number_at_offset text (sectEnd + eb.2)) true)

/-- `parse_pyproject_toml(path)` on the file's text: the `[project]`
dependencies, `[project.optional-dependencies]`,
`[tool.uv.dev-dependencies]` and `[tool.uv] dev-dependencies` branches,
in source order. -/
def parse_pyproject_toml (path text : Str) : DependencyManifest :=
  let projectDeps := match findSectionHeaderEnd (s "[project]") text with
    | some e => parse_deps_from_section text e (s "dependencies") path false
    | none => []
  let optDeps := match findSectionHeaderEnd (s "[project.optional-dependencies]") text with
    | some e => parseOptDeps text e path
    | none => []
  let uvDevDeps := match findSectionHeaderEnd (s "[tool.uv.dev-dependencies]") text with
    | some e => parse_deps_from_section text e (s "dependencies") path true
    | none => []
  let uvDeps := match findSectionHeaderEnd (s "[tool.uv]") text with
    | some e => parse_deps_from_section text e (s "dev-dependencies") path true
    | none => []
  { file := path, dependencies := projectDeps ++ optDeps ++ uvDevDeps ++ uvDeps }

/-! ### Spec-side variant: correct entry line numbers

The spec says every record's `line` equals the 1-based line of the entry
it was parsed from.  The entry at split index `i` of the bracketed block
lies on line `base_line + i` of the manifest (the block starts on the
line of the opening bracket), so the spec-following variant below assigns
`base_line + i` where the source assigns `base_line + i + 1`. -/

/-- Per the spec's words: like `parseDepLines`, with the entry's true
1-based line number `base_line + i`. -/
def parseDepLinesSpec (content sourceFile : Str) (baseLine : Nat) (dev : Bool) :
    List Dependency :=
  (content.splitOn '\n').enum.filterMap (fun p =>
    let st := stripWs p.2
    if st.isEmpty || st.head? == some '#' then none
    else parse_dep_line st sourceFile (baseLine + p.1) dev)

/-- Per the spec's words: `_parse_deps_from_section` with true entry
lines. -/
def parse_deps_from_sectionSpec (fullText : Str) (sectionEnd : Nat) (key sourceFile : Str)
    (dev : Bool) : List Dependency :=
  let sect := get_section_text fullText sectionEnd
  match findKeyStart key sect with
  | none => []
  | some ks =>
    let eb := extract_list_block sect ks
    parseDepLinesSpec eb.1 sourceFile
      (line_number_at_offset fullText (sectionEnd + eb.2)) dev

/-- Per the spec's words: the optional-dependencies branch with true
entry lines. -/
def parseOptDepsSpec (text : Str) (sectEnd : Nat) (path : Str) : List Dependency :=
  let sect := get_section_text text sectEnd
  (collectOptKeys sect).flatMap (fun q =>
    let eb := extract_list_block sect q
    parseDepLinesSpec eb.1 path (line_number_at_offset text (sectEnd + eb.2)) true)

/-- Per the spec's words: `parse_pyproject_toml` with true entry lines. -/
def parse_pyproject_tomlSpec (path text : Str) : DependencyManifest :=
  let projectDeps := match findSectionHeaderEnd (s "[project]") text with
    | some e => parse_deps_from_sectionSpec text e (s "dependencies") path false
    | none => []
  let optDeps := match findSectionHeaderEnd (s "[project.optional-dependencies]") text with
    | some e => parseOptDepsSpec text e path
    | none => []
  let uvDevDeps := match findSectionHeaderEnd (s "[tool.uv.dev-dependencies]") text with
    | some e => parse_deps_from_sectionSpec text e (s "dependencies") path true
    | none => []
  let uvDeps := match findSectionHeaderEnd (s "[tool.uv]") text with
    | some e => parse_deps_from_sectionSpec text e (s "dev-dependencies") path true
    | none => []
  { file := path, dependencies := projectDeps ++ optDeps ++ uvDevDeps ++ uvDeps }

/-- Incrementing a record's line field. -/
def lineSucc (d : Dependency) : Dependency := { d with line := d.line + 1 }

theorem parse_dep_line_succ (l f : Str) (n : Nat) (dev : Bool) :
    parse_dep_line l f (n + 1) dev = (parse_dep_line l f n dev).map lineSucc := by
  cases h : parseDepNameConstraint l <;> simp [parse_dep_line, h, lineSucc]

theorem parseDepLines_eq_spec (content f : Str) (b : Nat) (dev : Bool) :
    parseDepLines content f b dev = (parseDepLinesSpec content f b dev).map lineSucc := by
  unfold parseDepLines parseDepLinesSpec
  rw [List.map_filterMap]
  apply List.filterMap_congr
  intro p _
  by_cases h : (stripWs p.2).isEmpty || (stripWs p.2).head? == some '#'
  · simp only [h, if_true, Option.map_none']
  · simp only [h, if_false]
    exact parse_dep_line_succ (stripWs p.2) f (b + p.1) dev

theorem parse_deps_from_section_eq_spec (fullText : Str) (e : Nat) (key f : Str)
    (dev : Bool) :
    parse_deps_from_section fullText e key f dev =
      (parse_deps_from_sectionSpec fullText e key f dev).map lineSucc := by
  cases h : findKeyStart key (get_section_text fullText e) with
  | none => simp [parse_deps_from_section, parse_deps_from_sectionSpec, h]
  | some ks =>
    simp only [parse_deps_from_section, parse_deps_from_sectionSpec, h]
    exact parseDepLines_eq_spec _ _ _ _

theorem parseOptDeps_eq_spec (text : Str) (e : Nat) (path : Str) :
    parseOptDeps text e path = (parseOptDepsSpec text e path).map lineSucc := by
  unfold parseOptDeps parseOptDepsSpec
  rw [List.map_flatMap]
  apply List.flatMap_congr
  intro q _
  exact parseDepLines_eq_spec _ _ _ _

/-- C6 (as amended): every record returned by the pyproject parser has a
`line` field exactly one greater than the record's true entry line as
computed by the spec-following variant: the parser's output equals the
spec variant's output with every line incremented. -/
theorem c6_dependency_lines_off_by_one (path text : Str) :
    (parse_pyproject_toml path text).dependencies =
      ((parse_pyproject_tomlSpec path text).dependencies).map lineSucc := by
  have h1 : (match findSectionHeaderEnd (s "[project]") text with
      | some e => parse_deps_from_section text e (s "dependencies") path false
      | none => []) =
      (match findSectionHeaderEnd (s "[project]") text with
      | some e => parse_deps_from_sectionSpec text e (s "dependencies") path false
      | none => []).map lineSucc := by
    cases findSectionHeaderEnd (s "[project]") text with
    | none => rfl
    | some e => exact parse_deps_from_section_eq_spec _ _ _ _ _
  have h2 : (match findSectionHeaderEnd (s "[project.optional-dependencies]") text with
      | some e => parseOptDeps text e path
      | none => []) =
      (match findSectionHeaderEnd (s "[project.optional-dependencies]") text with
      | some e => parseOptDepsSpec text e path
      | none => []).map lineSucc := by
    cases findSectionHeaderEnd (s "[project.optional-dependencies]") text with
    | none => rfl
    | some e => exact parseOptDeps_eq_spec _ _ _
  have h3 : (match findSectionHeaderEnd (s "[tool.uv.dev-dependencies]") text with
      | some e => parse_deps_from_section text e (s "dependencies") path true
      | none => []) =
      (match findSectionHeaderEnd (s "[tool.uv.dev-dependencies]") text with
      | some e => parse_deps_from_sectionSpec text e (s "dependencies") path true
      | none => []).map lineSucc := by
    cases findSectionHeaderEnd (s "[tool.uv.dev-dependencies]") text with
    | none => rfl
    | some e => exact parse_deps_from_section_eq_spec _ _ _ _ _
  have h4 : (match findSectionHeaderEnd (s "[tool.uv]") text with
      | some e => parse_deps_from_section text e (s "dev-dependencies") path true
      | none => []) =
      (match findSectionHeaderEnd (s "[tool.uv]") text with
      | some e => parse_deps_from_sectionSpec text e (s "dev-dependencies") path true
      | none => []).map lineSucc := by
    cases findSectionHeaderEnd (s "[tool.uv]") text with
    | none => rfl
    | some e => exact parse_deps_from_section_eq_spec _ _ _ _ _
  simp only [parse_pyproject_toml, parse_pyproject_tomlSpec, List.map_append]
  rw [h1, h2, h3, h4]

/-- The manifest text of the C6 counterexample. -/
def c6text : Str := s "[project]\ndependencies = [\n    \"django>=5.0\",\n]\n"

/-- Counterexample for C6: in this manifest the `django` entry is on
1-based line 3 (line 4 is the closing bracket), but the parser records
`line = 4`, so the `line` field is not the 1-based line number of the
entry it was parsed from. -/
theorem c6_counterexample :
    (parse_pyproject_toml (s "pyproject.toml") c6text).dependencies =
      [{ name := s "django", version_constraint := s ">=5.0",
         source_file := s "pyproject.toml", line := 4, dev := false }] ∧
    (c6text.splitOn '\n').get? 2 = some (s "    \"django>=5.0\",") ∧
    (c6text.splitOn '\n').get? 3 = some (s "]") := by
  refine ⟨by decide, by decide, by decide⟩

/-! ## Shared scanning helpers -/

/-- First index at which `pat` occurs as a contiguous sublist
(Python `str.index` / `in`). -/
def indexOfSub (pat : Str) : Str → Option Nat
  | [] => if pat.isEmpty then some 0 else none
  | c :: rest =>
    if pat.isPrefixOf (c :: rest) then some 0
    else (indexOfSub pat rest).map (· + 1)

/-- Python `sub in text`. -/
def containsSub (pat text : Str) : Bool := (indexOfSub pat text).isSome

/-- `text.find(pat, start)` restricted to found-or-none. -/
def findSubFrom (text pat : Str) (start : Nat) : Option Nat :=
  (indexOfSub pat (text.drop start)).map (start + ·)

/-- `re.finditer` for a MULTILINE `^`-anchored pattern: try the matcher at
every line start, left to right, skipping starts inside an earlier match
(the scan resumes at the previous match's end).  The matcher returns the
captured name and the match end offset. -/
def scanMatches (m : Nat → Option (Str × Nat)) : List Nat → Nat → List (Nat × Str × Nat)
  | [], _ => []
  | q :: rest, minPos =>
    if minPos ≤ q then
      match m q with
      | some p => (q, p.1, p.2) :: scanMatches m rest p.2
      | none => scanMatches m rest minPos
    else scanMatches m rest minPos

theorem scanMatches_mem {m : Nat → Option (Str × Nat)} {starts : List Nat}
    {minPos : Nat} {x : Nat × Str × Nat} (hx : x ∈ scanMatches m starts minPos) :
    m x.1 = some (x.2.1, x.2.2) := by
  induction starts generalizing minPos with
  | nil => simp [scanMatches] at hx
  | cons q rest ih =>
    rw [scanMatches] at hx
    by_cases hq : minPos ≤ q
    · rw [if_pos hq] at hx
      cases hm : m q with
      | none => rw [hm] at hx; exact ih hx
      | some p =>
        rw [hm] at hx
        rcases List.mem_cons.mp hx with h | h
        · subst h; exact hm
        · exact ih h
    · rw [if_neg hq] at hx
      exact ih hx

/-! ## Test-file parser (`parsers/test_files.py`) -/

/-- `TestCase` dataclass. -/
structure TestCase where
  name : Str
  file : Str
  line : Nat
  class_name : Option Str
  keywords : List Str
deriving DecidableEq, Repr

/-- `TestSuite` dataclass. -/
structure TestSuite where
  file : Str
  framework : Str
  test_cases : List TestCase
deriving DecidableEq, Repr

/-- `FEATURE_KEYWORDS` from `parsers/test_files.py`. -/
def FEATURE_KEYWORDS : List Str :=
  [s "auth", s "login", s "register", s "signup", s "user", s "profile",
   s "todo", s "task", s "item", s "list",
   s "org", s "organization", s "team", s "member", s "role", s "permission",
   s "api", s "endpoint", s "route",
   s "create", s "read", s "update", s "delete", s "crud"]

/-- `_extract_keywords(name)`: lowercase, replace `_`/`-` with spaces,
keep the keywords occurring as substrings. -/
def extract_keywords (name : Str) : List Str :=
  let nl := (name.map toLowerA).map (fun c => if c = '_' || c = '-' then ' ' else c)
  FEATURE_KEYWORDS.filter (fun kw => containsSub kw nl)

/-- The `def\s+(test_\w+)\s*\(` part shared by `PYTEST_FUNC_RE` and
`PYTEST_METHOD_RE`; returns the captured name and the number of
characters consumed. -/
def matchDefTestPart (t : Str) : Option (Str × Nat) :=
  if (s "def").isPrefixOf t then
    let u := t.drop 3
    if u.head?.elim false isWs then
      let v := u.dropWhile isWs
      if (s "test_").isPrefixOf v then
        let w := (v.drop 5).takeWhile isWordChar
        if w.isEmpty then none
        else
          let z := ((v.drop 5).drop w.length).dropWhile isWs
          if z.head? == some '(' then some (s "test_" ++ w, t.length - z.length + 1)
          else none
      else none
    else none
  else none

/-- `(?:async\s+)?def\s+(test_\w+)\s*\(`: the optional `async` prefix is
tried first (greedy); on failure the engine retries without it. -/
def matchAsyncDefTest (t : Str) : Option (Str × Nat) :=
  if (s "async").isPrefixOf t && (t.drop 5).head?.elim false isWs then
    match matchDefTestPart ((t.drop 5).dropWhile isWs) with
    | some p => some (p.1, (t.length - ((t.drop 5).dropWhile isWs).length) + p.2)
    | none => matchDefTestPart t
  else matchDefTestPart t

/-- `PYTEST_FUNC_RE` tried at a line start. -/
def matchPytestFuncAt (text : Str) (q : Nat) : Option (Str × Nat) :=
  (matchAsyncDefTest (text.drop q)).map (fun p => (p.1, q + p.2))

/-- `PYTEST_METHOD_RE` (`^\s{4}(?:async\s+)?def\s+(test_\w+)\s*\(`)
tried at a line start of the class body. -/
def matchPytestMethodAt (body : Str) (q : Nat) : Option (Str × Nat) :=
  let r := body.drop q
  if (r.take 4).length = 4 && (r.take 4).all isWs then
    (matchAsyncDefTest (r.drop 4)).map (fun p => (p.1, q + 4 + p.2))
  else none

/-- `PYTEST_CLASS_RE` (`^class\s+(Test\w+)\s*[:(]`) tried at a line
start. -/
def matchPytestClassAt (text : Str) (q : Nat) : Option (Str × Nat) :=
  let r := text.drop q
  if (s "class").isPrefixOf r then
    let u := r.drop 5
    if u.head?.elim false isWs then
      let v := u.dropWhile isWs
      if (s "Test").isPrefixOf v then
        let w := (v.drop 4).takeWhile isWordChar
        if w.isEmpty then none
        else
          let z := ((v.drop 4).drop w.length).dropWhile isWs
          if z.head? == some ':' || z.head? == some '(' then
            some (s "Test" ++ w, q + (r.length - z.length) + 1)
          else none
      else none
    else none
  else none

/-- `parse_pytest_file(path)` on the file's text. -/
def parse_pytest_file (path text : Str) : TestSuite :=
  let funcs := scanMatches (matchPytestFuncAt text) (lineStarts text) 0
  let funcCases := funcs.filterMap (fun x =>
    let lineStart := match lastIdxOf '\n' (text.take x.1) with
      | some i => i + 1
      | none => 0
    if x.1 - lineStart < 2 then
      some { name := x.2.1, file := path, line := (text.take x.1).count '\n' + 1,
             class_name := none, keywords := extract_keywords x.2.1 }
    else none)
  let classes := scanMatches (matchPytestClassAt text) (lineStarts text) 0
  let classCases := classes.flatMap (fun x =>
    let e := x.2.2
    let classEnd := match findSubFrom text (s "\nclass ") e with
      | some i => i
      | none => text.length
    let body := (text.drop e).take (classEnd - e)
    let methods := scanMatches (matchPytestMethodAt body) (lineStarts body) 0
    methods.map (fun y =>
      { name := y.2.1, file := path, line := (text.take (e + y.1)).count '\n' + 1,
        class_name := some x.2.1,
        keywords := extract_keywords (x.2.1 ++ ['_'] ++ y.2.1) }))
  { file := path, framework := s "pytest", test_cases := funcCases ++ classCases }

/-! ## `_rel`, modelled from the spec -/

/-- Modelled from the spec: `BaseAuditor._rel` is called by every auditor
(`self._rel(path)`) but no definition of it exists anywhere under `src/`;
only its callers do.  The spec describes findings as carrying the source
file path within the audited project, so it is modelled as making the
path relative to the project path. -/
def rel (projectPath file : Str) : Str :=
  if (projectPath ++ [ '/' ]).isPrefixOf file then file.drop (projectPath.length + 1)
  else file

/-! ## Coverage auditor naming check (`auditors/tests.py`) -/

/-- `CoverageAuditor._check_naming`: for pytest suites, flag test cases
whose name does not start with `test_`. -/
def check_naming (projectPath : Str) (suites : List TestSuite) : List AuditFinding :=
  suites.flatMap (fun suite =>
    suite.test_cases.filterMap (fun tc =>
      if suite.framework = s "pytest" ∧ ¬ (s "test_").isPrefixOf tc.name then
        some { category := s "tests", severity := .info,
               file := rel projectPath tc.file, line := tc.line,
               message := s "Pytest function '" ++ tc.name ++ s "' doesn't start with 'test_'",
               suggestion := s "Prefix test functions with 'test_' for pytest discovery" }
      else none))

/-! ### C9 lemmas -/

theorem matchDefTestPart_name {t : Str} {p : Str × Nat}
    (h : matchDefTestPart t = some p) : ∃ w, p.1 = s "test_" ++ w := by
  unfold matchDefTestPart at h
  repeat' split at h
  all_goals try simp_all
  exact ⟨_, (congrArg Prod.fst h.2.2.2.2).symm⟩

theorem matchAsyncDefTest_name {t : Str} {p : Str × Nat}
    (h : matchAsyncDefTest t = some p) : ∃ w, p.1 = s "test_" ++ w := by
  unfold matchAsyncDefTest at h
  split at h
  · rcases hd : matchDefTestPart ((t.drop 5).dropWhile isWs) with _ | q
    · rw [hd] at h
      exact matchDefTestPart_name h
    · rw [hd] at h
      simp only [Option.some_inj] at h
      obtain ⟨w, hw⟩ := matchDefTestPart_name hd
      exact ⟨w, by rw [← h]; exact hw⟩
  · exact matchDefTestPart_name h

theorem matchPytestFuncAt_name {text : Str} {q : Nat} {p : Str × Nat}
    (h : matchPytestFuncAt text q = some p) : ∃ w, p.1 = s "test_" ++ w := by
  unfold matchPytestFuncAt at h
  rcases hd : matchAsyncDefTest (text.drop q) with _ | r
  · rw [hd] at h; simp at h
  · rw [hd] at h
    simp only [Option.map_some', Option.some_inj] at h
    obtain ⟨w, hw⟩ := matchAsyncDefTest_name hd
    exact ⟨w, by rw [← h]; exact hw⟩

theorem matchPytestMethodAt_name {body : Str} {q : Nat} {p : Str × Nat}
    (h : matchPytestMethodAt body q = some p) : ∃ w, p.1 = s "test_" ++ w := by
  simp only [matchPytestMethodAt] at h
  split at h
  · rcases hd : matchAsyncDefTest ((body.drop q).drop 4) with _ | r
    · rw [hd] at h; simp at h
    · rw [hd] at h
      simp only [Option.map_some', Option.some_inj] at h
      obtain ⟨w, hw⟩ := matchAsyncDefTest_name hd
      exact ⟨w, by rw [← h]; exact hw⟩
  · simp at h

theorem test_prefix_isPrefixOf (w : Str) : (s "test_").isPrefixOf (s "test_" ++ w) = true := by
  rw [List.isPrefixOf_iff_prefix]
  exact List.prefix_append _ _

/-- Every test case produced by the pytest parser has a name starting
with `test_`. -/
theorem parse_pytest_file_names (path text : Str) :
    ∀ tc ∈ (parse_pytest_file path text).test_cases,
      (s "test_").isPrefixOf tc.name = true := by
  intro tc htc
  unfold parse_pytest_file at htc
  simp only [List.mem_append] at htc
  rcases htc with h | h
  · rcases List.mem_filterMap.mp h with ⟨x, hx, hfx⟩
    have hm := scanMatches_mem hx
    obtain ⟨w, hw⟩ := matchPytestFuncAt_name hm
    split_ifs at hfx
    simp only [Option.some_inj] at hfx
    rw [← hfx]
    show (s "test_").isPrefixOf x.2.1 = true
    rw [hw]
    exact test_prefix_isPrefixOf w
  · rcases List.mem_flatMap.mp h with ⟨x, hx, hmem⟩
    rcases List.mem_map.mp hmem with ⟨y, hy, hfy⟩
    have hm := scanMatches_mem hy
    obtain ⟨w, hw⟩ := matchPytestMethodAt_name hm
    rw [← hfy]
    show (s "test_").isPrefixOf y.2.1 = true
    rw [hw]
    exact test_prefix_isPrefixOf w

/-- C9: every `TestCase` the pytest parser produces (both top-level
functions and methods of `Test`-prefixed classes) has a name beginning
with `test_`, because the extraction regexes capture `(test_\w+)`;
consequently the coverage auditor's naming check never emits its
"doesn't start with 'test_'" finding for a pytest suite — that branch is
unreachable. -/
theorem c9_pytest_names_make_naming_check_unreachable
    (projectPath path text : Str) :
    (∀ tc ∈ (parse_pytest_file path text).test_cases,
      (s "test_").isPrefixOf tc.name = true) ∧
    check_naming projectPath [parse_pytest_file path text] = [] := by
  refine ⟨parse_pytest_file_names path text, ?_⟩
  unfold check_naming
  rw [List.flatMap_singleton]
  rw [List.filterMap_eq_nil_iff]
  intro tc htc
  have hpre := parse_pytest_file_names path text tc htc
  rw [if_neg]
  rintro ⟨-, hnot⟩
  exact hnot hpre

/-! ## Decimal rendering of line numbers (Python `f"{n}"`) -/

def digitCharOf (d : Nat) : Char := Char.ofNat (48 + d)

def natToDecGo : Nat → Nat → Str → Str
  | 0, _, acc => acc
  | fuel + 1, m, acc =>
    if m = 0 then acc else natToDecGo fuel (m / 10) (digitCharOf (m % 10) :: acc)

/-- Decimal rendering of a natural number, as Python string formatting
produces it. -/
def natToDec (n : Nat) : Str := if n = 0 then s "0" else natToDecGo n n []

/-! ## Route parser (`parsers/django_routes.py`) -/

/-- `Route` dataclass. -/
structure Route where
  method : Str
  path : Str
  function_name : Str
  file : Str
  line : Nat
  has_auth : Bool
  is_stub : Bool
deriving DecidableEq, Repr

/-- A match of one of the two route-decorator regexes: start offset,
the raw method text (group 1), the path (group 2), the optional `auth=`
reference (group 3, `ROUTE_RE` only) and the match end offset. -/
structure RouteM where
  start : Nat
  methodRaw : Str
  path : Str
  authGroup : Option Str
  matchEnd : Nat
deriving DecidableEq, Repr

/-- Case-insensitive literal prefix (`re.IGNORECASE`). -/
def lowerPrefix (lit r : Str) : Bool := ((r.take lit.length).map toLowerA) == lit

/-- The HTTP-method alternation `(get|post|put|delete|patch)`
(no alternative is a prefix of another, so at most one applies). -/
def matchMethodAlt (r : Str) : Option Str :=
  if lowerPrefix (s "get") r then some (r.take 3)
  else if lowerPrefix (s "post") r then some (r.take 4)
  else if lowerPrefix (s "put") r then some (r.take 3)
  else if lowerPrefix (s "delete") r then some (r.take 6)
  else if lowerPrefix (s "patch") r then some (r.take 5)
  else none

/-- One candidate of the lazy `auth\s*=\s*(\w+)` subpattern at the head
of `u`; returns the captured group and the number of characters
consumed. -/
def authCandidateAt (u : Str) : Option (Str × Nat) :=
  if lowerPrefix (s "auth") u then
    let v := (u.drop 4).dropWhile isWs
    if v.head? == some '=' then
      let v2 := (v.drop 1).dropWhile isWs
      let w := v2.takeWhile isWordChar
      if w.isEmpty then none
      else some (w, u.length - (v2.length - w.length))
    else none
  else none

/-- The lazy scan of `(?:.*?auth\s*=\s*(\w+))?[^)]*\)` (DOTALL): try each
offset in order; the first `auth` candidate followed (somewhere) by a
`)` wins, and `[^)]*\)` then consumes to that first `)`.  Returns the
captured group and the offset of the consumed `)`. -/
def findAuthClose : Str → Nat → Option (Str × Nat)
  | [], _ => none
  | c :: rest, k =>
    match authCandidateAt (c :: rest) with
    | some p =>
      match ((c :: rest).drop p.2).findIdx? (fun d => d = ')') with
      | some j => some (p.1, k + p.2 + j)
      | none => findAuthClose rest (k + 1)
    | none => findAuthClose rest (k + 1)

/-- `ROUTE_RE` tried at offset `q`:
`@(?:\w+)\.(get|post|put|delete|patch)\s*\(\s*['\"]([^'\"]+)['\"]`
`(?:.*?auth\s*=\s*(\w+))?[^)]*\)` with IGNORECASE and DOTALL. -/
def matchRouteAt (text : Str) (q : Nat) : Option RouteM :=
  let r := text.drop q
  if r.head? == some '@' then
    let r1 := r.drop 1
    let w := r1.takeWhile isWordChar
    if w.isEmpty then none
    else
      let r2 := r1.drop w.length
      if r2.head? == some '.' then
        match matchMethodAlt (r2.drop 1) with
        | none => none
        | some m =>
          let r4 := (r2.drop 1).drop m.length
          let t := r4.dropWhile isWs
          if t.head? == some '(' then
            let t2 := (t.drop 1).dropWhile isWs
            if t2.head? == some '\'' || t2.head? == some '"' then
              let t3 := t2.drop 1
              let p := t3.takeWhile (fun c => !(c = '\'' || c = '"'))
              if p.isEmpty then none
              else
                let t4 := t3.drop p.length
                if t4.head? == some '\'' || t4.head? == some '"' then
                  let t5 := t4.drop 1
                  let consumed := r.length - t5.length
                  match findAuthClose t5 0 with
                  | some ac =>
                    some { start := q, methodRaw := m, path := p,
                           authGroup := some ac.1,
                           matchEnd := q + consumed + ac.2 + 1 }
                  | none =>
                    match t5.findIdx? (fun d => d = ')') with
                    | some j =>
                      some { start := q, methodRaw := m, path := p,
                             authGroup := none, matchEnd := q + consumed + j + 1 }
                    | none => none
                else none
            else none
          else none
      else none
  else none

/-- `HTTP_DECORATOR_RE` tried at offset `q`:
`@http_(get|post|put|delete|patch)\s*\(\s*['\"]([^'\"]+)['\"]`
with IGNORECASE. -/
def matchHttpDecoratorAt (text : Str) (q : Nat) : Option RouteM :=
  let r := text.drop q
  if lowerPrefix (s "@http_") r then
    match matchMethodAlt (r.drop 6) with
    | none => none
    | some m =>
      let r4 := (r.drop 6).drop m.length
      let t := r4.dropWhile isWs
      if t.head? == some '(' then
        let t2 := (t.drop 1).dropWhile isWs
        if t2.head? == some '\'' || t2.head? == some '"' then
          let t3 := t2.drop 1
          let p := t3.takeWhile (fun c => !(c = '\'' || c = '"'))
          if p.isEmpty then none
          else
            let t4 := t3.drop p.length
            if t4.head? == some '\'' || t4.head? == some '"' then
              some { start := q, methodRaw := m, path := p, authGroup := none,
                     matchEnd := q + (r.length - t4.length) + 1 }
            else none
        else none
      else none
  else none

/-- Generic `re.finditer` over arbitrary start offsets: scan positions in
ascending order, skipping positions inside an earlier match. -/
def scanAllMatches {α : Type} (m : Nat → Option α) (endOf : α → Nat) :
    List Nat → Nat → List α
  | [], _ => []
  | q :: rest, minPos =>
    if minPos ≤ q then
      match m q with
      | some a => a :: scanAllMatches m endOf rest (endOf a)
      | none => scanAllMatches m endOf rest minPos
    else scanAllMatches m endOf rest minPos

/-- `FUNC_DEF_RE` (`^def\s+(\w+)\s*\(`, MULTILINE) tried at a line start
of the remaining text; returns the function name and the match end. -/
def matchFuncDefAt (rem : Str) (p : Nat) : Option (Str × Nat) :=
  let t := rem.drop p
  if (s "def").isPrefixOf t then
    let u := t.drop 3
    if u.head?.elim false isWs then
      let v := u.dropWhile isWs
      let w := v.takeWhile isWordChar
      if w.isEmpty then none
      else
        let z := (v.drop w.length).dropWhile isWs
        if z.head? == some '(' then some (w, p + (t.length - z.length) + 1)
        else none
    else none
  else none

/-- `FUNC_DEF_RE.search(remaining)`. -/
def findFuncDef (rem : Str) : Option (Str × Nat) :=
  (lineStarts rem).findSome? (matchFuncDefAt rem)

/-- One keyword alternative of `STUB_RE` followed by `\s*$`: after the
keyword, the whitespace run must reach a newline or the end of the
text. -/
def kwTailOk (u kw : Str) : Bool :=
  kw.isPrefixOf u &&
  (let tail := u.drop kw.length
   let wr := tail.takeWhile isWs
   wr.contains '\n' || decide (wr.length = tail.length))

/-- One attempt of `STUB_RE` (`^\s+(pass|\.\.\.|raise NotImplementedError)\s*$`,
MULTILINE) at a line start. -/
def stubAt (body : Str) (p : Nat) : Bool :=
  let t := body.drop p
  let wsr := t.takeWhile isWs
  if wsr.isEmpty then false
  else
    let u := t.drop wsr.length
    kwTailOk u (s "pass") || kwTailOk u (s "...") ||
      kwTailOk u (s "raise NotImplementedError")

/-- `STUB_RE.search(body_text)`. -/
def stubSearch (body : Str) : Bool := (lineStarts body).any (stubAt body)

/-- Assemble a `Route` from a regex match, mirroring the loop body of
`parse_routes_file`: upper-cased method, 1-based line of the match
start, auth from group 3 (`ROUTE_RE`) or from an `auth=` substring of
the whole match, handler name from the next `def` after the match, and
stub detection over the five lines after the handler's signature. -/
def mkRoute (path text : Str) (isRouteRe : Bool) (mm : RouteM) : Route :=
  let g0 := (text.take mm.matchEnd).drop mm.start
  let hasAuth :=
    if isRouteRe && mm.authGroup.isSome then
      match mm.authGroup with
      | some a => !((a.map toLowerA) == s "none" || (a.map toLowerA) == s "false")
      | none => false
    else containsSub (s "auth=") g0
  let remaining := text.drop mm.matchEnd
  let funcMatch := findFuncDef remaining
  let fname := (funcMatch.map Prod.fst).getD (s "unknown")
  let isStub :=
    match funcMatch with
    | none => false
    | some fm =>
      let funcStart := mm.matchEnd + fm.2
      let funcLine := (text.take funcStart).count '\n'
      let bodyLines := ((text.splitOn '\n').drop funcLine).take 5
      stubSearch (List.intercalate (s "\n") bodyLines)
  { method := mm.methodRaw.map toUpperA, path := mm.path, function_name := fname,
    file := path, line := (text.take mm.start).count '\n' + 1,
    has_auth := hasAuth, is_stub := isStub }

/-- `parse_routes_file(path)` on the file's text: all `ROUTE_RE` matches,
then all `HTTP_DECORATOR_RE` matches, each turned into one `Route`
record — duplicates are preserved, nothing is deduplicated. -/
def parse_routes_file (path text : Str) : List Route :=
  ((scanAllMatches (matchRouteAt text) RouteM.matchEnd
      (List.range text.length) 0).map (mkRoute path text true)) ++
  ((scanAllMatches (matchHttpDecoratorAt text) RouteM.matchEnd
      (List.range text.length) 0).map (mkRoute path text false))

/-! ## Endpoint auditor: duplicate detection (`auditors/endpoints.py`) -/

/-- The duplicate key of a route: `(r.method, r.path)`. -/
def keyOf (r : Route) : Str × Str := (r.method, r.path)

/-- Keys in order of first occurrence, skipping those already seen. -/
def dedupFirstGo (seen : List (Str × Str)) : List (Str × Str) → List (Str × Str)
  | [] => []
  | k :: rest =>
    if k ∈ seen then dedupFirstGo seen rest
    else k :: dedupFirstGo (k :: seen) rest

/-- Keys in order of first occurrence (the iteration order of
`Counter.items()` / the insertion order of `route_map`). -/
def dedupFirst (l : List (Str × Str)) : List (Str × Str) := dedupFirstGo [] l

/-- The single ERROR finding `_check_duplicates` emits for a duplicated
key: its message lists every contributing `file:line` location. -/
def dupFindingFor (projectPath : Str) (routes : List Route) (k : Str × Str) :
    Option AuditFinding :=
  match routes.filter (fun r => keyOf r = k) with
  | [] => none
  | d :: ds =>
    some { category := s "endpoints", severity := .error,
           file := rel projectPath d.file, line := d.line,
           message := s "Duplicate route: " ++ k.1 ++ [' '] ++ k.2 ++ s " defined "
             ++ natToDec (d :: ds).length ++ s " times ("
             ++ List.intercalate (s ", ")
                  ((d :: ds).map (fun r => rel projectPath r.file ++ [':'] ++ natToDec r.line))
             ++ [')'],
           suggestion := s "Remove duplicate or use unique paths" }

/-- `EndpointAuditor._check_duplicates(routes)`: one ERROR finding per
key with more than one occurrence, in first-occurrence key order. -/
def check_duplicates (projectPath : Str) (routes : List Route) : List AuditFinding :=
  (dedupFirst (routes.map keyOf)).filterMap (fun k =>
    if 2 ≤ (routes.filter (fun r => keyOf r = k)).length then
      dupFindingFor projectPath routes k
    else none)

/-! ### C5 lemmas -/

theorem dedupFirstGo_not_mem_seen {l seen : List (Str × Str)} :
    ∀ x ∈ dedupFirstGo seen l, x ∉ seen := by
  induction l generalizing seen with
  | nil => simp [dedupFirstGo]
  | cons k rest ih =>
    intro x hx
    rw [dedupFirstGo] at hx
    by_cases hk : k ∈ seen
    · rw [if_pos hk] at hx
      exact ih x hx
    · rw [if_neg hk] at hx
      rcases List.mem_cons.mp hx with h | h
      · subst h; exact hk
      · intro hxs
        exact ih x h (List.mem_cons_of_mem _ hxs)

theorem dedupFirstGo_nodup {l seen : List (Str × Str)} :
    (dedupFirstGo seen l).Nodup := by
  induction l generalizing seen with
  | nil => simp [dedupFirstGo]
  | cons k rest ih =>
    rw [dedupFirstGo]
    by_cases hk : k ∈ seen
    · rw [if_pos hk]; exact ih
    · rw [if_neg hk]
      refine List.nodup_cons.mpr ⟨?_, ih⟩
      intro hmem
      exact dedupFirstGo_not_mem_seen _ hmem (List.mem_cons_self _ _)

theorem dedupFirstGo_mem {l seen : List (Str × Str)} {x : Str × Str} :
    x ∈ dedupFirstGo seen l ↔ (x ∈ l ∧ x ∉ seen) := by
  induction l generalizing seen with
  | nil => simp [dedupFirstGo]
  | cons k rest ih =>
    rw [dedupFirstGo]
    by_cases hk : k ∈ seen
    · rw [if_pos hk, ih]
      constructor
      · rintro ⟨h1, h2⟩
        exact ⟨List.mem_cons_of_mem _ h1, h2⟩
      · rintro ⟨h1, h2⟩
        rcases List.mem_cons.mp h1 with h | h
        · subst h; exact absurd hk h2
        · exact ⟨h, h2⟩
    · rw [if_neg hk]
      constructor
      · intro hx
        rcases List.mem_cons.mp hx with h | h
        · subst h; exact ⟨List.mem_cons_self _ _, hk⟩
        · obtain ⟨h1, h2⟩ := ih.mp h
          refine ⟨List.mem_cons_of_mem _ h1, ?_⟩
          intro hxs
          exact h2 (List.mem_cons_of_mem _ hxs)
      · rintro ⟨h1, h2⟩
        rcases List.mem_cons.mp h1 with h | h
        · subst h; exact List.mem_cons_self _ _
        · by_cases hxk : x = k
          · subst hxk; exact List.mem_cons_self _ _
          · refine List.mem_cons_of_mem _ (ih.mpr ⟨h, ?_⟩)
            intro hxs
            rcases List.mem_cons.mp hxs with h' | h'
            · exact hxk h'
            · exact h2 h'

theorem dedupFirst_mem {l : List (Str × Str)} {x : Str × Str} :
    x ∈ dedupFirst l ↔ x ∈ l := by
  unfold dedupFirst
  rw [dedupFirstGo_mem]
  simp

theorem containsSub_cons (p : Str) (c : Char) (rest : Str) :
    containsSub p (c :: rest) = (p.isPrefixOf (c :: rest) || containsSub p rest) := by
  unfold containsSub
  simp only [indexOfSub]
  by_cases h : p.isPrefixOf (c :: rest)
  · simp [h]
  · simp only [h, Bool.false_eq_true, if_false, Bool.false_or]
    cases hi : indexOfSub p rest <;> rfl

theorem containsSub_self_append (p b : Str) : containsSub p (p ++ b) = true := by
  cases hp : p ++ b with
  | nil =>
    have h0 : p = [] := (List.append_eq_nil.mp hp).1
    subst h0
    simp [containsSub, indexOfSub]
  | cons c rest =>
    rw [containsSub_cons, ← hp]
    have hpre : p.isPrefixOf (p ++ b) = true := by
      rw [List.isPrefixOf_iff_prefix]
      exact List.prefix_append _ _
    rw [hpre, Bool.true_or]

theorem containsSub_append_left (a : Str) {p t : Str} (h : containsSub p t = true) :
    containsSub p (a ++ t) = true := by
  induction a with
  | nil => simpa using h
  | cons c rest ih =>
    rw [List.cons_append, containsSub_cons, ih]
    simp

theorem intercalate_cons₂ (sep x y : Str) (rest : List Str) :
    List.intercalate sep (x :: y :: rest) = x ++ sep ++ List.intercalate sep (y :: rest) := by
  simp [List.intercalate, List.intersperse_cons_cons, List.append_assoc]

theorem mem_intercalate_containsSub {x : Str} {l : List Str} (sep : Str) (hx : x ∈ l) :
    containsSub x (List.intercalate sep l) = true := by
  induction l with
  | nil => simp at hx
  | cons y rest ih =>
    rcases List.mem_cons.mp hx with h | h
    · subst h
      cases rest with
      | nil =>
        have : List.intercalate sep [x] = x ++ [] := by
          simp [List.intercalate]
        rw [this]
        exact containsSub_self_append x []
      | cons z zs =>
        rw [intercalate_cons₂, List.append_assoc]
        exact containsSub_self_append x _
    · cases rest with
      | nil => simp at h
      | cons z zs =>
        rw [intercalate_cons₂]
        exact containsSub_append_left _ (ih h)

theorem containsSub_append_right {p : Str} (t b : Str) (h : containsSub p t = true) :
    containsSub p (t ++ b) = true := by
  induction t with
  | nil =>
    have : p = [] := by
      cases p with
      | nil => rfl
      | cons c r => simp [containsSub, indexOfSub] at h
    subst this
    simp [containsSub, indexOfSub]
    cases b <;> simp [indexOfSub, List.isPrefixOf]
  | cons c rest ih =>
    rw [containsSub_cons] at h
    rw [List.cons_append, containsSub_cons]
    rcases Bool.or_eq_true_iff.mp h with h1 | h1
    · have hpre : p.isPrefixOf ((c :: rest) ++ b) = true := by
        rw [List.isPrefixOf_iff_prefix] at h1 ⊢
        exact h1.trans (List.prefix_append _ _)
      rw [List.cons_append] at hpre
      rw [hpre, Bool.true_or]
    · rw [ih h1, Bool.or_true]

set_option maxRecDepth 16384

/-- The C5 concrete input: the repository's own duplicate-route test
file, two `@router.get("/users")` declarations on lines 4 and 7. -/
def c5text : Str :=
  s "from ninja import Router\nrouter = Router()\n\n@router.get(\"/users\")\ndef list_users(request): return []\n\n@router.get(\"/users\")\ndef list_users_v2(request): return []\n"

/-- C5: for every route multiset, the endpoint auditor emits its
duplicate findings from a duplicate-free first-occurrence list of keys —
exactly one finding per duplicated method+path key — each an ERROR whose
message enumerates the `file:line` of every contributing declaration,
and no finding when no key repeats; the route parser itself preserves
duplicates (two identical `GET /users` decorators parse to two records
with equal keys, which produce exactly one ERROR naming both lines). -/
theorem c5_duplicate_route_detection (pp : Str) (routes : List Route) :
    (dedupFirst (routes.map keyOf)).Nodup ∧
    check_duplicates pp routes =
      (dedupFirst (routes.map keyOf)).filterMap (fun k =>
        if 2 ≤ (routes.filter (fun r => keyOf r = k)).length then
          dupFindingFor pp routes k
        else none) ∧
    (∀ k, 2 ≤ (routes.filter (fun r => keyOf r = k)).length →
      ∃ f, dupFindingFor pp routes k = some f ∧ f ∈ check_duplicates pp routes ∧
        f.severity = Severity.error ∧
        ∀ r ∈ routes, keyOf r = k →
          containsSub (rel pp r.file ++ [':'] ++ natToDec r.line) f.message = true) ∧
    ((∀ k, (routes.filter (fun r => keyOf r = k)).length ≤ 1) →
      check_duplicates pp routes = []) ∧
    (parse_routes_file (s "api.py") c5text).map keyOf =
      [(s "GET", s "/users"), (s "GET", s "/users")] ∧
    check_duplicates (s ".") (parse_routes_file (s "api.py") c5text) =
      [{ category := s "endpoints", severity := .error, file := s "api.py", line := 4,
         message := s "Duplicate route: GET /users defined 2 times (api.py:4, api.py:7)",
         suggestion := s "Remove duplicate or use unique paths" }] := by
  refine ⟨dedupFirstGo_nodup, rfl, ?_, ?_, by decide, by decide⟩
  · intro k hk
    rcases hfil : routes.filter (fun r => keyOf r = k) with _ | ⟨d, ds⟩
    · rw [hfil] at hk
      simp at hk
    · have hsome : dupFindingFor pp routes k =
          some { category := s "endpoints", severity := .error,
                 file := rel pp d.file, line := d.line,
                 message := s "Duplicate route: " ++ k.1 ++ [' '] ++ k.2 ++ s " defined "
                   ++ natToDec (d :: ds).length ++ s " times ("
                   ++ List.intercalate (s ", ")
                        ((d :: ds).map (fun r => rel pp r.file ++ [':'] ++ natToDec r.line))
                   ++ [')'],
                 suggestion := s "Remove duplicate or use unique paths" } := by
        simp only [dupFindingFor, hfil]
      refine ⟨_, hsome, ?_, rfl, ?_⟩
      · unfold check_duplicates
        rw [List.mem_filterMap]
        refine ⟨k, ?_, ?_⟩
        · rw [dedupFirst_mem, List.mem_map]
          have hd : d ∈ routes.filter (fun r => keyOf r = k) := by
            rw [hfil]; exact List.mem_cons_self _ _
          have hd' := List.mem_filter.mp hd
          exact ⟨d, hd'.1, by simpa using hd'.2⟩
        · rw [if_pos hk]
          exact hsome
      · intro r hr hkr
        have hrf : r ∈ routes.filter (fun r => keyOf r = k) := by
          rw [List.mem_filter]
          exact ⟨hr, by simpa using hkr⟩
        rw [hfil] at hrf
        have hmem : rel pp r.file ++ [':'] ++ natToDec r.line ∈
            (d :: ds).map (fun r => rel pp r.file ++ [':'] ++ natToDec r.line) :=
          List.mem_map_of_mem _ hrf
        have hsub := mem_intercalate_containsSub (s ", ") hmem
        show containsSub _ (s "Duplicate route: " ++ k.1 ++ [' '] ++ k.2 ++ s " defined "
          ++ natToDec (d :: ds).length ++ s " times ("
          ++ List.intercalate (s ", ")
              ((d :: ds).map (fun r => rel pp r.file ++ [':'] ++ natToDec r.line))
          ++ [')']) = true
    /- the location string occurs inside the intercalated list, which sits
       inside the message between fixed prefix and the closing paren -/
        have h1 := containsSub_append_right
          (List.intercalate (s ", ")
            ((d :: ds).map (fun r => rel pp r.file ++ [':'] ++ natToDec r.line)))
          [')'] hsub
        have h2 := containsSub_append_left
          (s "Duplicate route: " ++ k.1 ++ [' '] ++ k.2 ++ s " defined "
            ++ natToDec (d :: ds).length ++ s " times (") h1
        simpa [List.append_assoc] using h2
  · intro hone
    unfold check_duplicates
    rw [List.filterMap_eq_nil_iff]
    intro k hkmem
    rw [if_neg]
    intro h2
    have := hone k
    omega

/-- Witness for C5: the duplicated key `GET /users` of the concrete
two-decorator file yields one ERROR finding enumerating both
locations. -/
theorem c5_duplicate_route_detection_witness :
    2 ≤ ((parse_routes_file (s "api.py") c5text).filter
        (fun r => keyOf r = (s "GET", s "/users"))).length ∧
    ∃ f, dupFindingFor (s ".") (parse_routes_file (s "api.py") c5text)
          (s "GET", s "/users") = some f ∧
      f ∈ check_duplicates (s ".") (parse_routes_file (s "api.py") c5text) ∧
      f.severity = Severity.error ∧
      ∀ r ∈ parse_routes_file (s "api.py") c5text, keyOf r = (s "GET", s "/users") →
        containsSub (rel (s ".") r.file ++ [':'] ++ natToDec r.line) f.message = true :=
  ⟨by decide,
    (c5_duplicate_route_detection (s ".") (parse_routes_file (s "api.py") c5text)).2.2.1
      (s "GET", s "/users") (by decide)⟩

/-! ## Schema record types (`parsers/python_schemas.py`,
`parsers/typescript_types.py`, `parsers/zod_schemas.py`) -/

/-- A discovered source file at the file-discovery boundary: the glob
helpers (`find_*` in the parsers) walk the filesystem and are pure I/O,
so each embedded `run()` receives their result as an input. -/
structure SrcFile where
  path : Str
  content : Str
deriving DecidableEq, Repr

/-- `PydanticField` dataclass. -/
structure PydanticField where
  name : Str
  type_str : Str
  optional : Bool
  default : Option Str
  constraints : List (Str × Str)
deriving DecidableEq, Repr

/-- `PydanticSchema` dataclass. -/
structure PydanticSchema where
  name : Str
  file : Str
  line : Nat
  fields : List PydanticField
  parent : Option Str
deriving DecidableEq, Repr

/-- `TSField` dataclass. -/
structure TSField where
  name : Str
  type_str : Str
  optional : Bool
deriving DecidableEq, Repr

/-- `TSInterface` dataclass. -/
structure TSInterface where
  name : Str
  file : Str
  line : Nat
  fields : List TSField
  /-- The source dataclass calls this field `extends` (a keyword here). -/
  extendsBase : Option Str
deriving DecidableEq, Repr

/-- `ZodField` dataclass. -/
structure ZodField where
  name : Str
  type_str : Str
  optional : Bool
  constraints : List (Str × Str)
deriving DecidableEq, Repr

/-- `ZodSchema` dataclass. -/
structure ZodSchema where
  name : Str
  file : Str
  line : Nat
  fields : List ZodField
deriving DecidableEq, Repr

/-- Python dict built by repeated assignment: the LAST binding of a key
wins, so lookup searches the reversed entry list. -/
def dictGet {α : Type} (entries : List (Str × α)) (k : Str) : Option α :=
  entries.reverse.lookup k

/-- Python `str.replace(pat, rep)` (all occurrences), with explicit fuel
to stay structurally recursive. -/
def replaceSubGo (pat rep : Str) : Nat → Str → Str
  | 0, l => l
  | fuel + 1, l =>
    match l with
    | [] => []
    | c :: rest =>
      if !pat.isEmpty && pat.isPrefixOf (c :: rest) then
        rep ++ replaceSubGo pat rep fuel ((c :: rest).drop pat.length)
      else c :: replaceSubGo pat rep fuel rest

def replaceSub (pat rep l : Str) : Str := replaceSubGo pat rep l.length l

/-! ## Type-safety auditor (`auditors/types.py`) -/

/-- `TYPE_MAP`: Python type → allowed TypeScript type fragments. -/
def TYPE_MAP : List (Str × List Str) :=
  [(s "str", [s "string"]),
   (s "int", [s "number"]),
   (s "float", [s "number"]),
   (s "bool", [s "boolean"]),
   (s "list", [s "array", s "Array"]),
   (s "dict", [s "object", s "Record"]),
   (s "datetime", [s "string", s "Date"]),
   (s "date", [s "string", s "Date"]),
   (s "uuid", [s "string"]),
   (s "UUID", [s "string"]),
   (s "Decimal", [s "number", s "string"])]

/-- `TypeSafetyAuditor._py_to_frontend_type`. -/
def pyToFrontendType (pyType : Str) : Str :=
  (dictGet [(s "str", s "string"), (s "int", s "number"),
            (s "float", s "number"), (s "bool", s "boolean")] pyType).getD pyType

/-- Rendering of the expected-type set in the mismatch suggestion
(Python formats the `set` value; the embedding fixes the element
order to the `TYPE_MAP` list order). -/
def renderTypeSet (ts : List Str) : Str :=
  ['{'] ++ List.intercalate (s ", ") (ts.map (fun t => ['\''] ++ t ++ ['\''])) ++ ['}']

/-- `TypeSafetyAuditor._compare_fields_ts`. -/
def compareFieldsTs (pp : Str) (py : PydanticSchema) (ts : TSInterface) :
    List AuditFinding :=
  let tsFields := ts.fields.map (fun f => (f.name, f))
  py.fields.flatMap (fun pf =>
    let camel := snake_to_camel pf.name
    match (dictGet tsFields pf.name).orElse (fun _ => dictGet tsFields camel) with
    | none =>
      [{ category := s "types", severity := .warning, file := rel pp ts.file,
         line := ts.line,
         message := s "TS interface '" ++ ts.name ++ s "' missing field '" ++ camel
           ++ s "' (from Python '" ++ pf.name ++ s "')",
         suggestion := s "Add '" ++ camel ++ s ": " ++ pyToFrontendType pf.type_str
           ++ s "' to " ++ ts.name }]
    | some tf =>
      (let expected := (List.lookup pf.type_str TYPE_MAP).getD []
       if !expected.isEmpty && !(expected.any (fun t => containsSub t tf.type_str)) then
        [{ category := s "types", severity := .warning, file := rel pp ts.file,
           line := ts.line,
           message := s "Type mismatch: Python '" ++ py.name ++ ['.'] ++ pf.name
             ++ s "' is '" ++ pf.type_str ++ s "' but TS '" ++ ts.name ++ ['.'] ++ tf.name
             ++ s "' is '" ++ tf.type_str ++ ['\''],
           suggestion := s "Expected TS type containing one of: " ++ renderTypeSet expected }]
       else []) ++
      (if pf.optional && !tf.optional then
        [{ category := s "types", severity := .info, file := rel pp ts.file,
           line := ts.line,
           message := s "Optionality mismatch: '" ++ py.name ++ ['.'] ++ pf.name
             ++ s "' is optional in Python but required in TS '" ++ ts.name ++ ['.']
             ++ tf.name ++ ['\''],
           suggestion := s "Consider making '" ++ tf.name ++ s "' optional with '?'" }]
       else []))

/-- `TypeSafetyAuditor._compare_with_ts`. -/
def compareWithTs (pp : Str) (pySchemas : List PydanticSchema)
    (tsIfaces : List TSInterface) : List AuditFinding :=
  let tsByName := tsIfaces.map (fun i => (i.name, i))
  pySchemas.flatMap (fun schema =>
    match dictGet tsByName schema.name with
    | none =>
      [{ category := s "types", severity := .warning, file := rel pp schema.file,
         line := schema.line,
         message := s "Pydantic '" ++ schema.name ++ s "' has no matching TS interface",
         suggestion := s "Create 'interface " ++ schema.name ++ s "' in frontend types" }]
    | some ts => compareFieldsTs pp schema ts)

/-- `TypeSafetyAuditor._compare_fields_zod`. -/
def compareFieldsZod (pp : Str) (py : PydanticSchema) (zod : ZodSchema) :
    List AuditFinding :=
  let zodFields := zod.fields.map (fun f => (f.name, f))
  py.fields.flatMap (fun pf =>
    let camel := snake_to_camel pf.name
    match (dictGet zodFields pf.name).orElse (fun _ => dictGet zodFields camel) with
    | none =>
      [{ category := s "types", severity := .warning, file := rel pp zod.file,
         line := zod.line,
         message := s "Zod schema '" ++ zod.name ++ s "' missing field '" ++ camel
           ++ s "' (from Python '" ++ pf.name ++ s "')",
         suggestion := s "Add '" ++ camel ++ s ": z." ++ pyToFrontendType pf.type_str
           ++ s "()' to " ++ zod.name }]
    | some zf =>
      (match List.lookup (s "min_length") pf.constraints with
       | some v =>
         if (List.lookup (s "min") zf.constraints).isNone then
          [{ category := s "types", severity := .info, file := rel pp zod.file,
             line := zod.line,
             message := s "Python '" ++ py.name ++ ['.'] ++ pf.name
               ++ s "' has min_length=" ++ v ++ s " but Zod '" ++ zod.name ++ ['.']
               ++ zf.name ++ s "' has no .min() constraint",
             suggestion := s "Add .min(" ++ v ++ s ") to match backend validation" }]
         else []
       | none => []) ++
      (match List.lookup (s "max_length") pf.constraints with
       | some v =>
         if (List.lookup (s "max") zf.constraints).isNone then
          [{ category := s "types", severity := .info, file := rel pp zod.file,
             line := zod.line,
             message := s "Python '" ++ py.name ++ ['.'] ++ pf.name
               ++ s "' has max_length=" ++ v ++ s " but Zod '" ++ zod.name ++ ['.']
               ++ zf.name ++ s "' has no .max() constraint",
             suggestion := s "Add .max(" ++ v ++ s ") to match backend validation" }]
         else []
       | none => []))

/-- `schema.name[0].lower() + schema.name[1:]` (the camelCase candidate);
on an empty name Python would raise IndexError, which no parser output
produces. -/
def camelFirst : Str → Str
  | [] => []
  | c :: rest => toLowerA c :: rest

/-- `TypeSafetyAuditor._compare_with_zod`. -/
def compareWithZod (pp : Str) (pySchemas : List PydanticSchema)
    (zods : List ZodSchema) : List AuditFinding :=
  let zodByName := zods.flatMap (fun z => [(z.name, z), (z.name.map toLowerA, z)])
  pySchemas.flatMap (fun schema =>
    let candidates := [schema.name, schema.name.map toLowerA,
                       replaceSub (s "Schema") [] schema.name, camelFirst schema.name]
    match candidates.findSome? (dictGet zodByName) with
    | none => []
    | some zod => compareFieldsZod pp schema zod)

/-- `TypeSafetyAuditor.run()`, at the parsing boundary: the three parse
stages (`_parse_python` / `_parse_typescript` / `_parse_zod` globbing and
parsing) supply its inputs; on a project with no recognized schema files
they all produce `[]`. -/
def typesRun (pp : Str) (pySchemas : List PydanticSchema)
    (tsIfaces : List TSInterface) (zods : List ZodSchema) : List AuditFinding :=
  if pySchemas.isEmpty then
    [{ category := s "types", severity := .info, file := s ".", line := 0,
       message := s "No Pydantic schemas found",
       suggestion := s "Define schemas in */schemas/*.py" }]
  else
    compareWithTs pp pySchemas tsIfaces ++ compareWithZod pp pySchemas zods

/-! ## Path helpers (`pathlib.Path.name` / `.suffix` / `.stem`) -/

def baseName (p : Str) : Str :=
  match lastIdxOf '/' p with
  | some i => p.drop (i + 1)
  | none => p

def pathSuffix (p : Str) : Str :=
  let b := baseName p
  match lastIdxOf '.' b with
  | some i => if 0 < i ∧ i < b.length - 1 then b.drop i else []
  | none => []

def pathStem (p : Str) : Str :=
  let b := baseName p
  match lastIdxOf '.' b with
  | some i => if 0 < i ∧ i < b.length - 1 then b.take i else b
  | none => b

/-! ## Vitest parser (`parsers/test_files.py`, describe/it dialect) -/

/-- The `\s*\(\s*['\"]([^'\"]+)['\"]` tail shared by
`VITEST_DESCRIBE_RE` and `VITEST_TEST_RE`; returns the captured string
and the characters consumed. -/
def parseParenQuoted (t : Str) : Option (Str × Nat) :=
  let a := t.dropWhile isWs
  if a.head? == some '(' then
    let b := (a.drop 1).dropWhile isWs
    if b.head? == some '\'' || b.head? == some '"' then
      let c' := b.drop 1
      let p := c'.takeWhile (fun c => !(c = '\'' || c = '"'))
      if p.isEmpty then none
      else
        let d := c'.drop p.length
        if d.head? == some '\'' || d.head? == some '"' then
          some (p, t.length - d.length + 1)
        else none
    else none
  else none

/-- `VITEST_DESCRIBE_RE` (`describe\s*\(\s*['\"]([^'\"]+)['\"]`) tried at
an offset. -/
def matchDescribeAt (text : Str) (q : Nat) : Option (Str × Nat) :=
  let r := text.drop q
  if (s "describe").isPrefixOf r then
    (parseParenQuoted (r.drop 8)).map (fun p => (p.1, q + 8 + p.2))
  else none

/-- `VITEST_TEST_RE` (`(?:it|test)\s*\(\s*['\"]([^'\"]+)['\"]`) tried at
an offset. -/
def matchVitestTestAt (text : Str) (q : Nat) : Option (Str × Nat) :=
  let r := text.drop q
  if (s "it").isPrefixOf r then
    (parseParenQuoted (r.drop 2)).map (fun p => (p.1, q + 2 + p.2))
  else if (s "test").isPrefixOf r then
    (parseParenQuoted (r.drop 4)).map (fun p => (p.1, q + 4 + p.2))
  else none

/-- `parse_vitest_file(path)` on the file's text: every `it(`/`test(`
call is a test case; its group label is the last `describe(` occurring
textually before it (a deliberate approximation). -/
def parse_vitest_file (path text : Str) : TestSuite :=
  let descs := scanMatches (matchDescribeAt text) (List.range text.length) 0
  let tests := scanMatches (matchVitestTestAt text) (List.range text.length) 0
  { file := path, framework := s "vitest",
    test_cases := tests.map (fun x =>
      let parent := ((descs.filter (fun d => d.1 < x.1)).getLast?).map (fun d => d.2.1)
      { name := x.2.1, file := path, line := (text.take x.1).count '\n' + 1,
        class_name := parent, keywords := extract_keywords x.2.1 }) }

/-! ## Coverage auditor (`auditors/tests.py`) -/

/-- `FEATURE_AREAS` from `auditors/tests.py`. -/
def FEATURE_AREAS : List (Str × List Str) :=
  [(s "auth", [s "auth", s "login", s "register", s "signup", s "token", s "password"]),
   (s "user", [s "user", s "profile", s "account"]),
   (s "crud", [s "create", s "read", s "update", s "delete", s "list", s "get", s "post", s "put"]),
   (s "org", [s "org", s "organization", s "team", s "member", s "role", s "permission"])]

/-- `CoverageAuditor._check_schema_coverage`. -/
def checkSchemaCoverage (pp : Str) (schemas : List PydanticSchema)
    (suites : List TestSuite) : List AuditFinding :=
  if schemas.isEmpty then []
  else
    let testNames := suites.flatMap (fun st => st.test_cases.flatMap (fun tc =>
      (tc.name.map toLowerA) ::
        (match tc.class_name with
         | some cn => [cn.map toLowerA]
         | none => [])))
    schemas.filterMap (fun schema =>
      let nameLower := replaceSub (s "schema") [] (schema.name.map toLowerA)
      if testNames.any (fun tn => containsSub nameLower tn) then none
      else some { category := s "tests", severity := .warning,
                  file := rel pp schema.file, line := schema.line,
                  message := s "No tests found for schema '" ++ schema.name ++ ['\''],
                  suggestion := s "Add tests for " ++ schema.name ++ s " CRUD and validation" })

/-- `CoverageAuditor._check_feature_coverage`. -/
def checkFeatureCoverage (testedKeywords : List Str) : List AuditFinding :=
  FEATURE_AREAS.filterMap (fun a =>
    if a.2.any (fun kw => testedKeywords.contains kw) then none
    else some { category := s "tests", severity := .info, file := s ".", line := 0,
                message := s "No tests cover the '" ++ a.1 ++ s "' feature area",
                suggestion := s "Add tests for: " ++ List.intercalate (s ", ") (a.2.take 3) })

/-- `CoverageAuditor._check_empty_suites`. -/
def checkEmptySuites (pp : Str) (suites : List TestSuite) : List AuditFinding :=
  suites.filterMap (fun st =>
    if st.test_cases.isEmpty then
      some { category := s "tests", severity := .warning, file := rel pp st.file,
             line := 1,
             message := s "Empty test file: " ++ rel pp st.file,
             suggestion := s "Add test cases or remove the file" }
    else none)

/-- `CoverageAuditor.run()`, with `find_test_files` / `find_schema_files`
plus `parse_pydantic_file` at the I/O boundary (on a project with no
recognized files both supply nothing). -/
def coverageRun (pp : Str) (testFiles : List SrcFile)
    (schemas : List PydanticSchema) : List AuditFinding :=
  if testFiles.isEmpty then
    [{ category := s "tests", severity := .warning, file := s ".", line := 0,
       message := s "No test files found",
       suggestion := s "Add tests in tests/ (pytest) or __tests__/ (vitest)" }]
  else
    let suites := testFiles.filterMap (fun f =>
      if pathSuffix f.path = s ".py" then some (parse_pytest_file f.path f.content)
      else if [s ".ts", s ".tsx", s ".js", s ".jsx"].contains (pathSuffix f.path) then
        some (parse_vitest_file f.path f.content)
      else none)
    let allKeywords := suites.flatMap (fun st => st.test_cases.flatMap (fun tc => tc.keywords))
    checkSchemaCoverage pp schemas suites ++ checkFeatureCoverage allKeywords
      ++ check_naming pp suites ++ checkEmptySuites pp suites

/-! ## Endpoint auditor run (`auditors/endpoints.py`) -/

/-- The outcome of one live-probe HTTP GET (the `urllib` call at the
network boundary). -/
inductive ProbeOutcome
  | status (code : Nat)
  | httpError (code : Nat)
  | unreachable
deriving DecidableEq, Repr

/-- `EndpointAuditor._check_stubs`. -/
def checkStubs (pp : Str) (routes : List Route) : List AuditFinding :=
  routes.filterMap (fun r =>
    if r.is_stub then
      some { category := s "endpoints", severity := .warning, file := rel pp r.file,
             line := r.line,
             message := s "Stub endpoint: " ++ r.method ++ [' '] ++ r.path ++ s " ("
               ++ r.function_name ++ [')'],
             suggestion := s "Implement the endpoint handler" }
    else none)

/-- `EndpointAuditor._check_auth`. -/
def checkAuth (pp : Str) (routes : List Route) : List AuditFinding :=
  routes.filterMap (fun r =>
    if [s "POST", s "PUT", s "DELETE", s "PATCH"].contains r.method && !r.has_auth then
      some { category := s "endpoints", severity := .warning, file := rel pp r.file,
             line := r.line,
             message := s "No auth on write endpoint: " ++ r.method ++ [' '] ++ r.path,
             suggestion := s "Add auth=... parameter to protect write operations" }
    else none)

/-- `EndpointAuditor._check_naming`. -/
def checkRouteNaming (pp : Str) (routes : List Route) : List AuditFinding :=
  routes.flatMap (fun r =>
    (if !(r.path.head? == some '/') then
      [{ category := s "endpoints", severity := .info, file := rel pp r.file,
         line := r.line,
         message := s "Route path missing leading slash: '" ++ r.path ++ ['\''],
         suggestion := s "Use '/" ++ r.path ++ s "' for consistency" }]
     else []) ++
    (if r.path ≠ s "/" ∧ r.path.getLast? = some '/' then
      [{ category := s "endpoints", severity := .info, file := rel pp r.file,
         line := r.line,
         message := s "Trailing slash on route: '" ++ r.path ++ ['\''],
         suggestion := s "Consider removing trailing slash for consistency" }]
     else []))

/-- `EndpointAuditor._live_probe`: GET-probe non-parameterized routes;
5xx → ERROR, 404 → WARNING, and on the first unreachable server emit one
INFO and stop probing. -/
def liveProbe (pp baseUrl : Str) (probe : Str → ProbeOutcome) :
    List Route → List AuditFinding
  | [] => []
  | r :: rest =>
    if r.method ≠ s "GET" then liveProbe pp baseUrl probe rest
    else
      let url := baseUrl ++ r.path
      if url.contains '{' || url.contains '<' then liveProbe pp baseUrl probe rest
      else
        match probe url with
        | .status code =>
          (if 500 ≤ code then
            [{ category := s "endpoints", severity := .error, file := rel pp r.file,
               line := r.line,
               message := s "Live probe " ++ r.method ++ [' '] ++ r.path
                 ++ s " returned " ++ natToDec code,
               suggestion := s "Check server logs for the error" }]
           else []) ++ liveProbe pp baseUrl probe rest
        | .httpError code =>
          (if 500 ≤ code then
            [{ category := s "endpoints", severity := .error, file := rel pp r.file,
               line := r.line,
               message := s "Live probe " ++ r.method ++ [' '] ++ r.path
                 ++ s " returned " ++ natToDec code,
               suggestion := s "Check server logs for the error" }]
           else if code = 404 then
            [{ category := s "endpoints", severity := .warning, file := rel pp r.file,
               line := r.line,
               message := s "Live probe " ++ r.method ++ [' '] ++ r.path
                 ++ s " returned 404",
               suggestion := s "Route may not be registered or server isn't running" }]
           else []) ++ liveProbe pp baseUrl probe rest
        | .unreachable =>
          [{ category := s "endpoints", severity := .info, file := s ".", line := 0,
             message := s "Could not reach " ++ baseUrl ++ s " — is the server running?",
             suggestion := s "Start the backend with 'make backend-dev' before using --live" }]

/-- `EndpointAuditor.run()`, with `find_route_files` at the I/O boundary
(and the live-probe base URL passed by the orchestrator — the
`base_url` field the code reads is absent from `AuditConfig` in
`base.py`). -/
def endpointRun (pp : Str) (live : Bool) (baseUrl : Str)
    (probe : Str → ProbeOutcome) (routeFiles : List SrcFile) : List AuditFinding :=
  let routes := routeFiles.flatMap (fun f => parse_routes_file f.path f.content)
  if routes.isEmpty then
    [{ category := s "endpoints", severity := .info, file := s ".", line := 0,
       message := s "No route definitions found",
       suggestion := s "Routes are expected in api.py, routes.py, controllers.py, etc." }]
  else
    check_duplicates pp routes ++ checkStubs pp routes ++ checkAuth pp routes
      ++ checkRouteNaming pp routes
      ++ (if live then liveProbe pp baseUrl probe routes else [])

/-! ## Code-quality auditor run (`auditors/quality.py`) -/

/-- `CodeQualityAuditor.run()`, with `_collect_files` at the I/O
boundary; each collected file is scanned by `_scan_file`, whose
debug-statement slice is embedded as `scanFileDebug` (the TODO /
mock-data / credential / stub line checks produce further findings on
non-empty files and are outside the embedded slice; on a project with
no recognized files no file is scanned at all).  Returns the findings
and the accumulated `fix_count`. -/
def qualityRun (pp : Str) (fix : Bool) (files : List SrcFile) :
    List AuditFinding × Nat :=
  files.foldl (fun acc f =>
    let isPy := pathSuffix f.path = s ".py"
    let isJs := [s ".ts", s ".tsx", s ".js", s ".jsx"].contains (pathSuffix f.path)
    let stem := (pathStem f.path).map toLowerA
    let isTest := containsSub (s "test") stem || containsSub (s "spec") stem
    let r :=
      if isPy then scanFileDebug (rel pp f.path) true isTest fix f.content
      else if isJs then scanFileDebug (rel pp f.path) false isTest fix f.content
      else (none, 0, [])
    (acc.1 ++ r.2.2, acc.2 + r.2.1)) ([], 0)

/-! ## Dependency auditor (`auditors/dependencies.py`) and the
`package.json` parser -/

/-- A parsed JSON value (`json.loads` sits at the stdlib boundary; the
auditor receives its result). -/
inductive Json
  | str (v : Str)
  | num (n : Int)
  | jbool (b : Bool)
  | null
  | arr (xs : List Json)
  | obj (kvs : List (Str × Json))
deriving Repr

def intToDec (n : Int) : Str :=
  if n < 0 then '-' :: natToDec n.natAbs else natToDec n.natAbs

/-- Python `str(...)` of a JSON scalar (`str(version)` in
`parse_package_json`); container renderings are approximated, real
manifests hold strings here. -/
def pyStr : Json → Str
  | .str v => v
  | .num n => intToDec n
  | .jbool true => s "True"
  | .jbool false => s "False"
  | .null => s "None"
  | .arr _ => s "[...]"
  | .obj _ => s "{...}"

def jsonGet (j : Json) (k : Str) : Option Json :=
  match j with
  | .obj kvs => dictGet kvs k
  | _ => none

/-- `parse_package_json(path)` on the file's text, with the `json.loads`
result supplied (`none` models a `JSONDecodeError`).  Line numbers are
the first line containing the quoted key (best effort); the
`engines.node` extraction is omitted (the manifest field is unused by
every embedded check). -/
def parse_package_json (path text : Str) (loaded : Option Json) : DependencyManifest :=
  match loaded with
  | none => { file := path, dependencies := [] }
  | some data =>
    let lines := text.splitOn '\n'
    let findLine := fun (key : Str) =>
      match lines.enum.find? (fun p => containsSub (['"'] ++ key ++ ['"']) p.2) with
      | some p => p.1 + 1
      | none => 1
    let deps := match jsonGet data (s "dependencies") with
      | some (.obj kvs) => kvs.map (fun kv =>
          { name := kv.1, version_constraint := pyStr kv.2, source_file := path,
            line := findLine kv.1, dev := false : Dependency })
      | _ => []
    let devDeps := match jsonGet data (s "devDependencies") with
      | some (.obj kvs) => kvs.map (fun kv =>
          { name := kv.1, version_constraint := pyStr kv.2, source_file := path,
            line := findLine kv.1, dev := true : Dependency })
      | _ => []
    { file := path, dependencies := deps ++ devDeps }

def DEPRECATED_PYTHON : List (Str × Str) :=
  [(s "nose", s "Use pytest instead"),
   (s "mock", s "Use unittest.mock (stdlib) instead"),
   (s "six", s "Python 2 compatibility layer — drop if Python 3 only"),
   (s "future", s "Python 2 compatibility layer — drop if Python 3 only")]

def DEPRECATED_JS : List (Str × Str) :=
  [(s "moment", s "Use date-fns or dayjs instead"),
   (s "request", s "Use fetch (built-in) or axios instead"),
   (s "tslint", s "Use eslint with typescript-eslint instead")]

def TYPE_CHECKERS : List Str := [s "mypy", s "pyright", s "pytype"]

/-- The per-dependency loop of `_check_python_deps`: returns the final
`seen_names` map, the type-checker flag, the collected stub names, and
the findings in emission order. -/
def pyDepsLoop (relFile : Str) :
    List Dependency → List (Str × Dependency) → Bool → List Str →
    List (Str × Dependency) × Bool × List Str × List AuditFinding
  | [], seen, tc, stubs => (seen, tc, stubs, [])
  | dep :: rest, seen, tc, stubs =>
    let lower := (dep.name.map toLowerA).map (fun c => if c = '-' then '_' else c)
    let tc' := tc || TYPE_CHECKERS.contains lower
    let stubs' :=
      if (s "types_").isPrefixOf lower || (s "types-").isPrefixOf lower then
        lower :: stubs
      else stubs
    let f1 :=
      if dep.version_constraint.isEmpty then
        [{ category := dependencyAuditorCategory, severity := .warning, file := relFile,
           line := dep.line,
           message := s "Unpinned dependency: " ++ dep.name,
           suggestion := s "Add version constraint, e.g. " ++ dep.name ++ s ">=1.0" }]
      else if containsSub (s ">=") dep.version_constraint &&
          !containsSub (s "<") dep.version_constraint then
        [{ category := dependencyAuditorCategory, severity := .info, file := relFile,
           line := dep.line,
           message := s "Overly broad constraint: " ++ dep.name ++ dep.version_constraint,
           suggestion := s "Consider adding an upper bound version constraint" }]
      else []
    let f2 := match List.lookup lower DEPRECATED_PYTHON with
      | some sugg =>
        [{ category := dependencyAuditorCategory, severity := .warning, file := relFile,
           line := dep.line,
           message := s "Deprecated package: " ++ dep.name, suggestion := sugg }]
      | none => []
    let step : List AuditFinding × List (Str × Dependency) :=
      match List.lookup lower seen with
      | some prev =>
        ((if prev.dev ≠ dep.dev then
          [{ category := dependencyAuditorCategory, severity := .error, file := relFile,
             line := dep.line,
             message := s "Duplicate dependency: " ++ dep.name
               ++ s " in both regular and dev dependencies",
             suggestion := s "Remove from one of the dependency lists" }]
         else []), seen)
      | none => ([], seen ++ [(lower, dep)])
    let r := pyDepsLoop relFile rest step.2 tc' stubs'
    (r.1, r.2.1, r.2.2.1, f1 ++ f2 ++ step.1 ++ r.2.2.2)

/-- The trailing type-stub check of `_check_python_deps`. -/
def stubsFindings (relFile : Str) (seen : List (Str × Dependency)) (hasTC : Bool)
    (stubs : List Str) : List AuditFinding :=
  if !hasTC then []
  else
    let stubsMap := [(s "django", s "django-stubs"), (s "requests", s "types-requests"),
                     (s "pyyaml", s "types-pyyaml")]
    let normalized := stubs.map (fun st => st.map (fun c => if c = '-' then '_' else c))
    stubsMap.filterMap (fun pk =>
      let stubKey := (pk.2.map toLowerA).map (fun c => if c = '-' then '_' else c)
      match List.lookup pk.1 seen with
      | some d =>
        if !(normalized.contains stubKey) then
          some { category := dependencyAuditorCategory, severity := .info, file := relFile,
                 line := d.line,
                 message := s "Missing type stubs for " ++ pk.1,
                 suggestion := s "Add " ++ pk.2 ++ s " to dev dependencies" }
        else none
      | none => none)

/-- `DependencyAuditor._check_python_deps`. -/
def check_python_deps (pp : Str) (manifest : DependencyManifest) : List AuditFinding :=
  let relFile := rel pp manifest.file
  let r := pyDepsLoop relFile manifest.dependencies [] false []
  r.2.2.2 ++ stubsFindings relFile r.1 r.2.1 r.2.2.1

/-- The per-dependency loop of `_check_node_deps`. -/
def nodeDepsLoop (relFile : Str) :
    List Dependency → List (Str × Dependency) → List (Str × Dependency) × List AuditFinding
  | [], seen => (seen, [])
  | dep :: rest, seen =>
    let lower := dep.name.map toLowerA
    let f1 :=
      if dep.version_constraint = s "*" ∨ dep.version_constraint = s "latest" ∨
          dep.version_constraint = [] then
        [{ category := dependencyAuditorCategory, severity := .warning, file := relFile,
           line := dep.line,
           message := s "Unpinned dependency: " ++ dep.name ++ s " ("
             ++ (if dep.version_constraint.isEmpty then s "no version"
                 else dep.version_constraint) ++ [')'],
           suggestion := s "Pin to a specific version range, e.g. ^1.0.0" }]
      else []
    let f2 := match List.lookup lower DEPRECATED_JS with
      | some sugg =>
        [{ category := dependencyAuditorCategory, severity := .warning, file := relFile,
           line := dep.line,
           message := s "Deprecated package: " ++ dep.name, suggestion := sugg }]
      | none => []
    let step : List AuditFinding × List (Str × Dependency) :=
      match List.lookup lower seen with
      | some prev =>
        ((if prev.dev ≠ dep.dev then
          [{ category := dependencyAuditorCategory, severity := .error, file := relFile,
             line := dep.line,
             message := s "Duplicate dependency: " ++ dep.name ++ s " in deps and devDeps",
             suggestion := s "Remove from one of the dependency objects" }]
         else []), seen)
      | none => ([], seen ++ [(lower, dep)])
    let r := nodeDepsLoop relFile rest step.2
    (r.1, f1 ++ f2 ++ step.1 ++ r.2)

/-- `DependencyAuditor._check_node_deps`. -/
def check_node_deps (pp : Str) (manifest : DependencyManifest) : List AuditFinding :=
  (nodeDepsLoop (rel pp manifest.file) manifest.dependencies []).2

/-- `DependencyAuditor._check_cross_manifest_conflicts`. -/
def crossManifestConflicts (pp : Str) (manifests : List DependencyManifest) :
    List AuditFinding :=
  let ts : List (Str × Str) := manifests.flatMap (fun m =>
    m.dependencies.filterMap (fun d =>
      if d.name.map toLowerA = s "typescript" then some (m.file, d.version_constraint)
      else none))
  if 1 < ts.length then
    match ts.map (fun fv => fv.2) with
    | [] => []
    | v :: rest =>
      if rest.any (fun v' => decide (v' ≠ v)) then
        ts.map (fun fv =>
          { category := dependencyAuditorCategory, severity := .warning,
            file := rel pp fv.1, line := 1,
            message := s "TypeScript version conflict: " ++ fv.2,
            suggestion := s "Align TypeScript versions across packages" })
      else []
  else []

/-- `DependencyAuditor.run()`, with `find_dependency_files` and
`json.loads` at the I/O boundary.  (The category this auditor stamps,
`AuditType.DEPENDENCIES`, does not exist in `base.py`'s enum — see C1 —
so findings carry the category string the tests expect.) -/
def dependencyRun (pp : Str) (depFiles : List SrcFile) (loads : Str → Option Json) :
    List AuditFinding :=
  let step := depFiles.foldl (fun (acc : List AuditFinding × List DependencyManifest) f =>
    if baseName f.path = s "pyproject.toml" then
      let m := parse_pyproject_toml f.path f.content
      (acc.1 ++ check_python_deps pp m, acc.2 ++ [m])
    else if baseName f.path = s "package.json" then
      let m := parse_package_json f.path f.content (loads f.content)
      (acc.1 ++ check_node_deps pp m, acc.2 ++ [m])
    else acc) ([], [])
  step.1 ++ crossManifestConflicts pp step.2

/-! ## Vulnerability auditor (`auditors/vulnerabilities.py`) -/

/-- One `vulns` entry of a pip-audit JSON result. -/
structure PipAuditVuln where
  id : Str
  description : Str
  fix_versions : List Str
deriving DecidableEq, Repr

/-- One dependency entry of a pip-audit JSON result. -/
structure PipAuditEntry where
  name : Str
  version : Str
  vulns : List PipAuditVuln
deriving DecidableEq, Repr

/-- One entry of the `vulnerabilities` object of an `npm audit` JSON
result (`title` is `via[0].title` when present, else empty). -/
structure NpmVulnInfo where
  severity : Str
  title : Str
deriving DecidableEq, Repr

/-- One `vulns` entry of an OSV API response (`severityTypes` collects
the `type` of each `severity` list entry). -/
structure OsvVuln where
  id : Str
  summary : Str
  severityTypes : List Str
deriving DecidableEq, Repr

/-- `VulnerabilityAuditor._map_severity`. -/
def mapSeverity (fixVersions : List Str) : Severity :=
  if fixVersions.isEmpty then .warning else .error

/-- `VulnerabilityAuditor._npm_severity`. -/
def npmSeverity (sev : Str) : Severity :=
  if sev = s "critical" ∨ sev = s "high" then .error
  else if sev = s "moderate" then .warning
  else .info

/-- `VulnerabilityAuditor._osv_severity`: the CVSS score-parsing loop in
the source is a no-op; the result is ERROR iff some severity entry has
type `CVSS_V3`, else WARNING. -/
def osvSeverity (v : OsvVuln) : Severity :=
  if v.severityTypes.contains (s "CVSS_V3") then .error else .warning

/-- `VulnerabilityAuditor._check_osv` for one dependency, with the OSV
HTTPS query at the network boundary (`none` models a network error,
silently skipped). -/
def checkOsv (pp name version ecosystem manifest : Str) (line : Nat)
    (osv : Str → Str → Str → Option (List OsvVuln)) : List AuditFinding :=
  let clean := version.dropWhile (fun c =>
    c = '>' || c = '=' || c = '<' || c = '~' || c = '^' || c = '!' || c = ' ')
  if clean.isEmpty then []
  else
    match osv name clean ecosystem with
    | none => []
    | some vulns => vulns.map (fun v =>
        { category := vulnerabilityAuditorCategory, severity := osvSeverity v,
          file := rel pp manifest, line := line,
          message := s "Known vulnerability in " ++ name ++ [' '] ++ clean ++ s ": "
            ++ v.id ++ s " — " ++ v.summary.take 120,
          suggestion := s "Check https://osv.dev/vulnerability/" ++ v.id })

/-- `VulnerabilityAuditor._check_python_vulns`, with the `pip-audit`
subprocess at the boundary (`none` models tool unavailable / timeout /
bad exit code / bad JSON, which falls back to OSV). -/
def checkPythonVulns (pp manifestPath manifestText : Str)
    (pipAudit : Str → Option (List PipAuditEntry))
    (osv : Str → Str → Str → Option (List OsvVuln)) : List AuditFinding :=
  let parsed := parse_pyproject_toml manifestPath manifestText
  if parsed.dependencies.isEmpty then []
  else
    match pipAudit manifestPath with
    | some entries =>
      entries.flatMap (fun e => e.vulns.map (fun v =>
        { category := vulnerabilityAuditorCategory,
          severity := mapSeverity v.fix_versions,
          file := rel pp manifestPath, line := 0,
          message := s "Vulnerability in " ++ e.name ++ [' '] ++ e.version ++ s ": "
            ++ v.id ++ s " — " ++ v.description.take 120,
          suggestion := s "Upgrade to: " ++ List.intercalate (s ", ") v.fix_versions }))
    | none =>
      parsed.dependencies.flatMap (fun d =>
        checkOsv pp d.name d.version_constraint (s "PyPI") manifestPath d.line osv)

/-- `VulnerabilityAuditor._check_node_vulns`, with `npm audit` and
`json.loads` at the boundary. -/
def checkNodeVulns (pp manifestPath manifestText : Str) (loads : Str → Option Json)
    (npmAudit : Str → Option (List (Str × NpmVulnInfo)))
    (osv : Str → Str → Str → Option (List OsvVuln)) : List AuditFinding :=
  let parsed := parse_package_json manifestPath manifestText (loads manifestText)
  if parsed.dependencies.isEmpty then []
  else
    match npmAudit manifestPath with
    | some vulnerabilities =>
      vulnerabilities.map (fun pv =>
        { category := vulnerabilityAuditorCategory, severity := npmSeverity pv.2.severity,
          file := rel pp manifestPath, line := 0,
          message := if pv.2.title.isEmpty then s "Vulnerability in " ++ pv.1
            else s "Vulnerability in " ++ pv.1 ++ s ": " ++ pv.2.title,
          suggestion := s "Run 'npm audit fix' or update " ++ pv.1 })
    | none =>
      parsed.dependencies.flatMap (fun d =>
        checkOsv pp d.name d.version_constraint (s "npm") manifestPath d.line osv)

/-- `VulnerabilityAuditor.run()`, with `find_dependency_files` at the
I/O boundary. -/
def vulnerabilityRun (pp : Str) (depFiles : List SrcFile)
    (pipAudit : Str → Option (List PipAuditEntry))
    (npmAudit : Str → Option (List (Str × NpmVulnInfo)))
    (osv : Str → Str → Str → Option (List OsvVuln))
    (loads : Str → Option Json) : List AuditFinding :=
  depFiles.flatMap (fun f =>
    if baseName f.path = s "pyproject.toml" then
      checkPythonVulns pp f.path f.content pipAudit osv
    else if baseName f.path = s "package.json" then
      checkNodeVulns pp f.path f.content loads npmAudit osv
    else [])

/-! ## Task-file writer (`auditors/report.py`) -/

/-- `AUDIT_START` marker from `auditors/report.py`. -/
def AUDIT_START : Str := s "<!-- audit:start -->"

/-- `AUDIT_END` marker from `auditors/report.py`. -/
def AUDIT_END : Str := s "<!-- audit:end -->"

def backtick : Char := Char.ofNat 96

/-- The `f.severity in (Severity.ERROR, Severity.WARNING)` filter of
`write_todo`. -/
def isActionable (f : AuditFinding) : Bool :=
  match f.severity with
  | .error => true
  | .warning => true
  | .info => false

/-- Python `str.title()` for ASCII: a letter is uppercased when the
previous character is not a letter, lowercased otherwise. -/
def titleGo : Str → Bool → Str
  | [], _ => []
  | c :: rest, prevAlpha =>
    let al := isLowerA c || isUpperA c
    (if al then (if prevAlpha then toLowerA c else toUpperA c) else c) :: titleGo rest al

/-- Lexicographic `<` on strings (the key order of Python `sorted` on
`by_category.items()`). -/
def strLtC : Str → Str → Bool
  | [], [] => false
  | [], _ :: _ => true
  | _ :: _, [] => false
  | a :: as', b :: bs => if a.toNat < b.toNat then true else if a = b then strLtC as' bs else false

def insertLe (x : Str) : List Str → List Str
  | [] => [x]
  | y :: ys => if strLtC y x then y :: insertLe x ys else x :: y :: ys

/-- Stable insertion sort by `strLtC` (Python `sorted`). -/
def sortStr : List Str → List Str
  | [] => []
  | x :: xs => insertLe x (sortStr xs)

def dedupStrGo (seen : List Str) : List Str → List Str
  | [] => []
  | k :: rest =>
    if k ∈ seen then dedupStrGo seen rest
    else k :: dedupStrGo (k :: seen) rest

/-- Keys in first-occurrence order — the insertion order of the
`by_category` dict built by `setdefault`. -/
def dedupStr (l : List Str) : List Str := dedupStrGo [] l

/-- The `loc` f-string of `_build_audit_section`. -/
def locOf (item : AuditFinding) : Str :=
  if item.line ≠ 0 then
    [backtick] ++ item.file ++ [':'] ++ natToDec item.line ++ [backtick]
  else [backtick] ++ item.file ++ [backtick]

/-- The markdown line(s) `_build_audit_section` appends for one finding:
the checkbox line, plus an indented suggestion line when the suggestion
is non-empty. -/
def findingLines (item : AuditFinding) : List Str :=
  (s "- [" ++ (if item.severity = Severity.error then s "x" else s " ") ++ s "] **"
      ++ (Severity.value item.severity).map toUpperA ++ s "** " ++ locOf item
      ++ s " — " ++ item.message)
    :: (if item.suggestion.isEmpty then [] else [s "  - " ++ item.suggestion])

/-- The lines `_build_audit_section` appends for one category: the
`### Title` header, each finding's lines, and a blank line. -/
def categoryBlock (items : List AuditFinding) (cat : Str) : List Str :=
  (s "### " ++ titleGo cat false) :: (items.flatMap findingLines ++ [([] : Str)])

/-- The grouped-by-category middle lines of `_build_audit_section`:
categories in sorted key order, each category's findings in first-append
order. -/
def sectionBody (fs : List AuditFinding) : List Str :=
  (sortStr (dedupStr (fs.map (fun f => f.category)))).flatMap (fun cat =>
    categoryBlock (fs.filter (fun f => decide (f.category = cat))) cat)

/-- `_build_audit_section`. -/
def buildAuditSection (fs : List AuditFinding) : Str :=
  List.intercalate (s "\n")
    (AUDIT_START :: s "## Audit Findings" :: ([] : Str) :: (sectionBody fs ++ [AUDIT_END]))

/-- `_replace_audit_section`: replace from the first `AUDIT_START`
occurrence through the first `AUDIT_END` occurrence when both markers
are present, else append. -/
def replaceAuditSection (content newSection : Str) : Str :=
  match indexOfSub AUDIT_START content, indexOfSub AUDIT_END content with
  | some st, some en => content.take st ++ newSection ++ content.drop (en + AUDIT_END.length)
  | _, _ => rstripWs content ++ s "\n\n" ++ newSection ++ s "\n"

/-- `write_todo` at the file-system boundary: `existing` is the current
content of `tasks/todo.md` (`none` when the file does not exist) and the
result is the content written back (`none` when nothing is written). -/
def write_todo (findings : List AuditFinding) (existing : Option Str) : Option Str :=
  let actionable := findings.filter isActionable
  if actionable.isEmpty then none
  else
    let sec := buildAuditSection actionable
    match existing with
    | some content => some (replaceAuditSection content sec)
    | none => some (s "# Project TODO\n\n" ++ sec ++ s "\n")

/-- Number of positions of `text` where `pat` occurs as a substring. -/
def countSub (pat : Str) : Str → Nat
  | [] => if pat.isPrefixOf [] then 1 else 0
  | c :: rest => (if pat.isPrefixOf (c :: rest) then 1 else 0) + countSub pat rest

theorem indexOfSub_cons_not_prefix {p : Str} {c : Char} {t : Str}
    (h : p.isPrefixOf (c :: t) = false) :
    indexOfSub p (c :: t) = (indexOfSub p t).map (· + 1) := by
  simp [indexOfSub, h]

theorem countSub_cons_not_prefix {p : Str} {c : Char} {t : Str}
    (h : p.isPrefixOf (c :: t) = false) :
    countSub p (c :: t) = countSub p t := by
  simp [countSub, h]

theorem indexOfSub_append_clean {p : Str} {c0 : Char} (hp : p.head? = some c0)
    (a b : Str) (ha : c0 ∉ a) :
    indexOfSub p (a ++ b) = (indexOfSub p b).map (· + a.length) := by
  induction a with
  | nil => cases h : indexOfSub p b <;> simp [h]
  | cons c a' ih =>
    have hcne : c ≠ c0 := fun h => ha (h ▸ List.mem_cons_self c a')
    have ha' : c0 ∉ a' := fun h => ha (List.mem_cons_of_mem _ h)
    have hpre : p.isPrefixOf (c :: (a' ++ b)) = false := by
      cases p with
      | nil => simp at hp
      | cons x xs =>
        have hx : x = c0 := by simpa using hp
        have hxc : (x == c) = false := by
          simp only [beq_eq_false_iff_ne, ne_eq, hx]
          exact fun h => hcne h.symm
        simp [List.isPrefixOf, hxc]
    rw [List.cons_append, indexOfSub_cons_not_prefix hpre, ih ha']
    cases h : indexOfSub p b <;> simp [h] <;> omega

theorem countSub_append_clean {p : Str} {c0 : Char} (hp : p.head? = some c0)
    (a b : Str) (ha : c0 ∉ a) :
    countSub p (a ++ b) = countSub p b := by
  induction a with
  | nil => simp
  | cons c a' ih =>
    have hcne : c ≠ c0 := fun h => ha (h ▸ List.mem_cons_self c a')
    have ha' : c0 ∉ a' := fun h => ha (List.mem_cons_of_mem _ h)
    have hpre : p.isPrefixOf (c :: (a' ++ b)) = false := by
      cases p with
      | nil => simp at hp
      | cons x xs =>
        have hx : x = c0 := by simpa using hp
        have hxc : (x == c) = false := by
          simp only [beq_eq_false_iff_ne, ne_eq, hx]
          exact fun h => hcne h.symm
        simp [List.isPrefixOf, hxc]
    rw [List.cons_append, countSub_cons_not_prefix hpre, ih ha']

theorem countSub_clean_zero {p : Str} {c0 : Char} (hp : p.head? = some c0)
    (t : Str) (ht : c0 ∉ t) : countSub p t = 0 := by
  have h := countSub_append_clean hp t [] ht
  rw [List.append_nil] at h
  rw [h]
  cases p with
  | nil => simp at hp
  | cons x xs => simp [countSub, List.isPrefixOf]

theorem indexOfSub_clean_none {p : Str} {c0 : Char} (hp : p.head? = some c0)
    (t : Str) (ht : c0 ∉ t) : indexOfSub p t = none := by
  have h := indexOfSub_append_clean hp t [] ht
  rw [List.append_nil] at h
  rw [h]
  cases p with
  | nil => simp at hp
  | cons x xs => simp [indexOfSub, List.isEmpty]

theorem indexOfSub_self_app (p r : Str) : indexOfSub p (p ++ r) = some 0 := by
  cases p with
  | nil =>
    cases r with
    | nil => simp [indexOfSub, List.isEmpty]
    | cons c t => simp [indexOfSub, List.isPrefixOf]
  | cons x xs =>
    have hpre : (x :: xs).isPrefixOf (x :: (xs ++ r)) = true := by
      rw [List.isPrefixOf_iff_prefix]
      exact List.prefix_append _ _
    rw [List.cons_append]
    simp [indexOfSub, hpre]

theorem countSub_self_app {p : Str} {c0 : Char} (hp : p.head? = some c0)
    (hcl : c0 ∉ p.drop 1) (r : Str) : countSub p (p ++ r) = 1 + countSub p r := by
  cases p with
  | nil => simp at hp
  | cons x xs =>
    have hpre : (x :: xs).isPrefixOf (x :: (xs ++ r)) = true := by
      rw [List.isPrefixOf_iff_prefix]
      exact List.prefix_append _ _
    rw [List.cons_append]
    simp only [countSub, hpre, if_true]
    rw [countSub_append_clean hp xs r (by simpa using hcl)]

theorem not_prefix_of_take_ne (n : Nat) {p q : Str} (hnp : n ≤ p.length)
    (hnq : n ≤ q.length) (hne : p.take n ≠ q.take n) (b : Str) :
    p.isPrefixOf (q ++ b) = false := by
  rw [Bool.eq_false_iff]
  intro h
  rw [List.isPrefixOf_iff_prefix] at h
  obtain ⟨t, ht⟩ := h
  apply hne
  have heq : (p ++ t).take n = (q ++ b).take n := by rw [ht]
  rwa [List.take_append_of_le_length hnp, List.take_append_of_le_length hnq] at heq

theorem start_not_prefix_end (b : Str) :
    AUDIT_START.isPrefixOf (AUDIT_END ++ b) = false :=
  not_prefix_of_take_ne 12 (by decide) (by decide) (by decide) b

theorem end_not_prefix_start (b : Str) :
    AUDIT_END.isPrefixOf (AUDIT_START ++ b) = false :=
  not_prefix_of_take_ne 12 (by decide) (by decide) (by decide) b

theorem toLowerA_eq_lt {c : Char} (h : toLowerA c = '<') : c = '<' := by
  unfold toLowerA at h
  split_ifs at h with hu
  · exfalso
    have hb : 65 ≤ c.toNat ∧ c.toNat ≤ 90 := by simpa [isUpperA] using hu
    have ht : (Char.ofNat (c.toNat + 32)).toNat = c.toNat + 32 :=
      toNat_ofNat_lt _ (by omega)
    have h60 : ('<').toNat = 60 := rfl
    rw [h] at ht
    omega
  · exact h

theorem toUpperA_eq_lt {c : Char} (h : toUpperA c = '<') : c = '<' := by
  unfold toUpperA at h
  split_ifs at h with hl
  · exfalso
    have hb : 97 ≤ c.toNat ∧ c.toNat ≤ 122 := by simpa [isLowerA] using hl
    have ht : (Char.ofNat (c.toNat - 32)).toNat = c.toNat - 32 :=
      toNat_ofNat_lt _ (by omega)
    have h60 : ('<').toNat = 60 := rfl
    rw [h] at ht
    omega
  · exact h

theorem titleGo_lt : ∀ (t : Str) (b : Bool), '<' ∈ titleGo t b → '<' ∈ t
  | [], _, h => by simp [titleGo] at h
  | c :: rest, b, h => by
    simp only [titleGo] at h
    rcases List.mem_cons.mp h with h1 | h2
    · have hc : c = '<' := by
        split_ifs at h1
        · exact toLowerA_eq_lt h1.symm
        · exact toUpperA_eq_lt h1.symm
        · exact h1.symm
      simp [hc]
    · exact List.mem_cons_of_mem _ (titleGo_lt rest _ h2)

theorem digitCharOf_toNat {d : Nat} (h : d < 10) : (digitCharOf d).toNat = 48 + d := by
  unfold digitCharOf
  exact toNat_ofNat_lt _ (by omega)

theorem natToDecGo_mem : ∀ (fuel m : Nat) (acc : Str) (c : Char),
    c ∈ natToDecGo fuel m acc → c ∈ acc ∨ ∃ d, d < 10 ∧ c = digitCharOf d
  | 0, _, _, _, h => Or.inl h
  | fuel + 1, m, acc, c, h => by
    rw [natToDecGo] at h
    split_ifs at h with h0
    · exact Or.inl h
    · rcases natToDecGo_mem fuel (m / 10) _ c h with h1 | h1
      · rcases List.mem_cons.mp h1 with h2 | h2
        · exact Or.inr ⟨m % 10, Nat.mod_lt _ (by omega), h2⟩
        · exact Or.inl h2
      · exact Or.inr h1

theorem natToDec_lt (n : Nat) : '<' ∉ natToDec n := by
  intro h
  unfold natToDec at h
  split_ifs at h with h0
  · exact absurd h (by decide)
  · rcases natToDecGo_mem n n [] '<' h with h1 | ⟨d, hd, hc⟩
    · simp at h1
    · have ht := digitCharOf_toNat hd
      rw [← hc] at ht
      have h60 : ('<').toNat = 60 := rfl
      omega

theorem insertLe_mem {y x : Str} : ∀ {l : List Str}, y ∈ insertLe x l → y = x ∨ y ∈ l
  | [], h => by simpa [insertLe] using h
  | z :: zs, h => by
    rw [insertLe] at h
    split_ifs at h
    · rcases List.mem_cons.mp h with h1 | h1
      · exact Or.inr (h1 ▸ List.mem_cons_self z zs)
      · rcases insertLe_mem h1 with h2 | h2
        · exact Or.inl h2
        · exact Or.inr (List.mem_cons_of_mem _ h2)
    · rcases List.mem_cons.mp h with h1 | h1
      · exact Or.inl h1
      · exact Or.inr h1

theorem sortStr_mem {y : Str} : ∀ {l : List Str}, y ∈ sortStr l → y ∈ l
  | [], h => by simpa [sortStr] using h
  | x :: xs, h => by
    rw [sortStr] at h
    rcases insertLe_mem h with h1 | h1
    · exact h1 ▸ List.mem_cons_self x xs
    · exact List.mem_cons_of_mem _ (sortStr_mem h1)

theorem dedupStrGo_mem {y : Str} : ∀ {seen l : List Str}, y ∈ dedupStrGo seen l → y ∈ l
  | _, [], h => by simpa [dedupStrGo] using h
  | seen, k :: rest, h => by
    rw [dedupStrGo] at h
    split_ifs at h
    · exact List.mem_cons_of_mem _ (dedupStrGo_mem h)
    · rcases List.mem_cons.mp h with h1 | h1
      · exact h1 ▸ List.mem_cons_self k rest
      · exact List.mem_cons_of_mem _ (dedupStrGo_mem h1)

theorem dedupStr_mem {y : Str} {l : List Str} (h : y ∈ dedupStr l) : y ∈ l :=
  dedupStrGo_mem h

theorem mem_rstripWs {c : Char} {t : Str} (h : c ∈ rstripWs t) : c ∈ t := by
  unfold rstripWs at h
  rw [List.mem_reverse] at h
  have hs := (List.dropWhile_sublist (l := t.reverse) isWs).mem h
  rwa [List.mem_reverse] at hs

theorem intercalate_singleton (sep x : Str) : List.intercalate sep [x] = x := by
  simp [List.intercalate]

theorem intercalate_append_last (sep b : Str) :
    ∀ (xs : List Str), xs ≠ [] →
      List.intercalate sep (xs ++ [b]) = List.intercalate sep xs ++ sep ++ b
  | [], h => absurd rfl h
  | [x], _ => by
    rw [List.singleton_append, intercalate_cons₂, intercalate_singleton,
      intercalate_singleton]
  | x :: y :: rest, _ => by
    have ih := intercalate_append_last sep b (y :: rest) (by simp)
    rw [List.cons_append] at ih
    rw [List.cons_append, List.cons_append, intercalate_cons₂, ih, intercalate_cons₂]
    simp [List.append_assoc]

theorem mem_of_mem_intercalate {c : Char} {sep : Str} :
    ∀ {xs : List Str}, c ∈ List.intercalate sep xs → c ∈ sep ∨ ∃ l ∈ xs, c ∈ l
  | [], h => by simp [List.intercalate] at h
  | [x], h => by
    rw [intercalate_singleton] at h
    exact Or.inr ⟨x, List.mem_singleton_self x, h⟩
  | x :: y :: rest, h => by
    rw [intercalate_cons₂] at h
    rcases List.mem_append.mp h with h1 | h1
    · rcases List.mem_append.mp h1 with h2 | h2
      · exact Or.inr ⟨x, List.mem_cons_self _ _, h2⟩
      · exact Or.inl h2
    · rcases mem_of_mem_intercalate h1 with h2 | ⟨l, hl, hc⟩
      · exact Or.inl h2
      · exact Or.inr ⟨l, List.mem_cons_of_mem _ hl, hc⟩

theorem locOf_clean {item : AuditFinding} (hfile : '<' ∉ item.file) :
    '<' ∉ locOf item := by
  unfold locOf
  split_ifs <;> intro h <;>
    rcases List.mem_append.mp h with h1 | h1
  · rcases List.mem_append.mp h1 with h2 | h2
    · rcases List.mem_append.mp h2 with h3 | h3
      · rcases List.mem_append.mp h3 with h4 | h4
        · exact absurd h4 (by decide)
        · exact hfile h4
      · exact absurd h3 (by decide)
    · exact natToDec_lt _ h2
  · exact absurd h1 (by decide)
  · rcases List.mem_append.mp h1 with h2 | h2
    · exact absurd h2 (by decide)
    · exact hfile h2
  · exact absurd h1 (by decide)

theorem findingLines_clean {item : AuditFinding} (hfile : '<' ∉ item.file)
    (hmsg : '<' ∉ item.message) (hsugg : '<' ∉ item.suggestion) :
    ∀ l ∈ findingLines item, '<' ∉ l := by
  intro l hl
  unfold findingLines at hl
  rcases List.mem_cons.mp hl with rfl | hl
  · intro h
    rcases List.mem_append.mp h with h1 | h1
    case _ =>
      rcases List.mem_append.mp h1 with h2 | h2
      case _ =>
        rcases List.mem_append.mp h2 with h3 | h3
        case _ =>
          rcases List.mem_append.mp h3 with h4 | h4
          case _ =>
            rcases List.mem_append.mp h4 with h5 | h5
            case _ =>
              rcases List.mem_append.mp h5 with h6 | h6
              case _ =>
                rcases List.mem_append.mp h6 with h7 | h7
                · exact absurd h7 (by decide)
                · split_ifs at h7 <;> exact absurd h7 (by decide)
              case _ => exact absurd h6 (by decide)
            case _ =>
              have hsev : '<' ∉ (Severity.value item.severity).map toUpperA := by
                cases item.severity <;> decide
              exact hsev h5
          case _ => exact absurd h4 (by decide)
        case _ => exact locOf_clean hfile h3
      case _ => exact absurd h2 (by decide)
    case _ => exact hmsg h1
  · split_ifs at hl
    · simp at hl
    · rw [List.mem_singleton] at hl
      subst hl
      intro h
      rcases List.mem_append.mp h with h1 | h1
      · exact absurd h1 (by decide)
      · exact hsugg h1

theorem sectionBody_clean {fs : List AuditFinding}
    (hclean : ∀ f ∈ fs,
      '<' ∉ f.category ∧ '<' ∉ f.file ∧ '<' ∉ f.message ∧ '<' ∉ f.suggestion) :
    ∀ l ∈ sectionBody fs, '<' ∉ l := by
  intro l hl
  unfold sectionBody at hl
  rw [List.mem_flatMap] at hl
  obtain ⟨cat, hcat, hl⟩ := hl
  have hcatmem : cat ∈ fs.map (fun f => f.category) := dedupStr_mem (sortStr_mem hcat)
  obtain ⟨f, hf, hfc⟩ := List.mem_map.mp hcatmem
  have hcatl : '<' ∉ cat := hfc ▸ (hclean f hf).1
  unfold categoryBlock at hl
  rcases List.mem_cons.mp hl with rfl | hl
  · intro h
    rcases List.mem_append.mp h with h1 | h1
    · exact absurd h1 (by decide)
    · exact hcatl (titleGo_lt _ _ h1)
  · rcases List.mem_append.mp hl with hl | hl
    · rw [List.mem_flatMap] at hl
      obtain ⟨item, hitem, hl⟩ := hl
      obtain ⟨_, hfile, hmsg, hsugg⟩ := hclean item (List.mem_of_mem_filter hitem)
      exact findingLines_clean hfile hmsg hsugg l hl
    · rw [List.mem_singleton] at hl
      subst hl
      simp

theorem buildAuditSection_shape (fs : List AuditFinding)
    (hclean : ∀ f ∈ fs,
      '<' ∉ f.category ∧ '<' ∉ f.file ∧ '<' ∉ f.message ∧ '<' ∉ f.suggestion) :
    ∃ M : Str, buildAuditSection fs = AUDIT_START ++ M ++ AUDIT_END ∧ '<' ∉ M := by
  refine ⟨s "\n" ++
    (List.intercalate (s "\n")
      (s "## Audit Findings" :: ([] : Str) :: sectionBody fs) ++ s "\n"), ?_, ?_⟩
  · unfold buildAuditSection
    rw [intercalate_cons₂]
    have hsplit : (s "## Audit Findings" :: ([] : Str) :: (sectionBody fs ++ [AUDIT_END]))
        = (s "## Audit Findings" :: ([] : Str) :: sectionBody fs) ++ [AUDIT_END] := by
      simp
    rw [hsplit, intercalate_append_last _ _ _ (by simp)]
    simp [List.append_assoc]
  · intro h
    rcases List.mem_append.mp h with h1 | h1
    · exact absurd h1 (by decide)
    · rcases List.mem_append.mp h1 with h2 | h2
      · rcases mem_of_mem_intercalate h2 with h3 | ⟨l, hl, hc⟩
        · exact absurd h3 (by decide)
        · rcases List.mem_cons.mp hl with rfl | hl
          · exact absurd hc (by decide)
          · rcases List.mem_cons.mp hl with rfl | hl
            · simp at hc
            · exact sectionBody_clean hclean l hl hc
      · exact absurd h2 (by decide)

theorem replaceAuditSection_sectioned (A M B sec₂ : Str)
    (hA : '<' ∉ A) (hM : '<' ∉ M) (hB : '<' ∉ B) :
    replaceAuditSection (A ++ (AUDIT_START ++ M ++ AUDIT_END) ++ B) sec₂
      = A ++ sec₂ ++ B := by
  have hpS : AUDIT_START.head? = some '<' := by decide
  have hpE : AUDIT_END.head? = some '<' := by decide
  have hc : (A ++ (AUDIT_START ++ M ++ AUDIT_END) ++ B)
      = A ++ (AUDIT_START ++ (M ++ (AUDIT_END ++ B))) := by
    simp [List.append_assoc]
  have hstail : '<' ∉ AUDIT_START.drop 1 := by decide
  have idxE0 : indexOfSub AUDIT_END (AUDIT_START ++ (M ++ (AUDIT_END ++ B)))
      = some (AUDIT_START.length + M.length) := by
    have hcons : AUDIT_START ++ (M ++ (AUDIT_END ++ B))
        = '<' :: (AUDIT_START.drop 1 ++ (M ++ (AUDIT_END ++ B))) := rfl
    have hnp := end_not_prefix_start (M ++ (AUDIT_END ++ B))
    rw [hcons] at hnp
    rw [hcons, indexOfSub_cons_not_prefix hnp,
      indexOfSub_append_clean hpE _ _ hstail,
      indexOfSub_append_clean hpE _ _ hM,
      indexOfSub_self_app]
    have h19 : (AUDIT_START.drop 1).length = 19 := by decide
    have h20 : AUDIT_START.length = 20 := by decide
    simp only [Option.map_some']
    rw [h19, h20]
    congr 1
    omega
  have idx1 : indexOfSub AUDIT_START (A ++ (AUDIT_START ++ (M ++ (AUDIT_END ++ B))))
      = some A.length := by
    rw [indexOfSub_append_clean hpS A _ hA, indexOfSub_self_app]
    simp
  have idx2 : indexOfSub AUDIT_END (A ++ (AUDIT_START ++ (M ++ (AUDIT_END ++ B))))
      = some (AUDIT_START.length + M.length + A.length) := by
    rw [indexOfSub_append_clean hpE A _ hA, idxE0]
    simp
  rw [hc]
  simp only [replaceAuditSection, idx1, idx2]
  have htake : (A ++ (AUDIT_START ++ (M ++ (AUDIT_END ++ B)))).take A.length = A :=
    List.take_left A _
  have hregroup : A ++ (AUDIT_START ++ (M ++ (AUDIT_END ++ B)))
      = (A ++ (AUDIT_START ++ (M ++ AUDIT_END))) ++ B := by
    simp [List.append_assoc]
  have hlen : AUDIT_START.length + M.length + A.length + AUDIT_END.length
      = (A ++ (AUDIT_START ++ (M ++ AUDIT_END))).length := by
    simp [List.length_append]
    omega
  have hdrop : (A ++ (AUDIT_START ++ (M ++ (AUDIT_END ++ B)))).drop
      (AUDIT_START.length + M.length + A.length + AUDIT_END.length) = B := by
    rw [hregroup, hlen, List.drop_left]
  rw [htake, hdrop]

theorem countSub_sectioned (A M B : Str)
    (hA : '<' ∉ A) (hM : '<' ∉ M) (hB : '<' ∉ B) :
    countSub AUDIT_START (A ++ (AUDIT_START ++ M ++ AUDIT_END) ++ B) = 1 ∧
    countSub AUDIT_END (A ++ (AUDIT_START ++ M ++ AUDIT_END) ++ B) = 1 := by
  have hpS : AUDIT_START.head? = some '<' := by decide
  have hpE : AUDIT_END.head? = some '<' := by decide
  have hstail : '<' ∉ AUDIT_START.drop 1 := by decide
  have hetail : '<' ∉ AUDIT_END.drop 1 := by decide
  have hc : (A ++ (AUDIT_START ++ M ++ AUDIT_END) ++ B)
      = A ++ (AUDIT_START ++ (M ++ (AUDIT_END ++ B))) := by
    simp [List.append_assoc]
  rw [hc]
  constructor
  · rw [countSub_append_clean hpS A _ hA, countSub_self_app hpS hstail,
      countSub_append_clean hpS M _ hM]
    have hcons : AUDIT_END ++ B = '<' :: (AUDIT_END.drop 1 ++ B) := rfl
    have hnp := start_not_prefix_end B
    rw [hcons] at hnp
    rw [hcons, countSub_cons_not_prefix hnp,
      countSub_append_clean hpS _ _ hetail,
      countSub_clean_zero hpS B hB]
  · rw [countSub_append_clean hpE A _ hA]
    have hcons : AUDIT_START ++ (M ++ (AUDIT_END ++ B))
        = '<' :: (AUDIT_START.drop 1 ++ (M ++ (AUDIT_END ++ B))) := rfl
    have hnp := end_not_prefix_start (M ++ (AUDIT_END ++ B))
    rw [hcons] at hnp
    rw [hcons, countSub_cons_not_prefix hnp,
      countSub_append_clean hpE _ _ hstail,
      countSub_append_clean hpE M _ hM,
      countSub_self_app hpE hetail,
      countSub_clean_zero hpE B hB]

/-- A finding whose message contains the `AUDIT_END` marker text,
breaking the task-file writer's delimiting. -/
def c3bad : AuditFinding :=
  { category := s "quality", severity := .error, file := s "app.py", line := 7,
    message := s "leftover <!-- audit:end --> marker", suggestion := [] }

/-- A representative clean actionable finding. -/
def c3good : AuditFinding :=
  { category := s "quality", severity := .error, file := s "app.py", line := 3,
    message := s "print() call left in code", suggestion := s "Use logging instead" }

/-- C3 counterexample: when a persisted finding's message itself contains
the `<!-- audit:end -->` marker text, the first write already leaves two
end markers in `tasks/todo.md`, and the second write — which replaces up
to the FIRST end-marker occurrence (`content.index`) — changes the file
and leaves three end markers, so the write is neither
single-section-delimited nor idempotent. -/
theorem c3_counterexample :
    write_todo [c3bad] (write_todo [c3bad] none) ≠ write_todo [c3bad] none ∧
    (write_todo [c3bad] none).map (countSub AUDIT_END) = some 2 ∧
    (write_todo [c3bad] (write_todo [c3bad] none)).map (countSub AUDIT_END)
      = some 3 := by
  refine ⟨by decide, by decide, by decide⟩

/-- C3 (amended): for findings whose text fields are free of the `<`
character (so no field can collide with the HTML-comment markers) with
at least one ERROR/WARNING finding, and an initial `tasks/todo.md` that
is absent or itself `<`-free, `write_todo` writes content of the shape
`prefix ++ section ++ suffix` where the section is built from exactly
the ERROR/WARNING findings; that content contains exactly one start and
one end marker; any subsequent `write_todo` replaces exactly the
delimited section (prefix and suffix are preserved verbatim); and
re-running with the same findings reproduces the content verbatim. -/
theorem c3_todo_write_idempotent
    (findings : List AuditFinding) (existing : Option Str)
    (hne : findings.filter isActionable ≠ [])
    (hclean : ∀ f ∈ findings,
      '<' ∉ f.category ∧ '<' ∉ f.file ∧ '<' ∉ f.message ∧ '<' ∉ f.suggestion)
    (hex : ∀ c₀, existing = some c₀ → '<' ∉ c₀) :
    ∃ A B : Str,
      write_todo findings existing
        = some (A ++ buildAuditSection (findings.filter isActionable) ++ B) ∧
      countSub AUDIT_START
        (A ++ buildAuditSection (findings.filter isActionable) ++ B) = 1 ∧
      countSub AUDIT_END
        (A ++ buildAuditSection (findings.filter isActionable) ++ B) = 1 ∧
      (∀ findings₂ : List AuditFinding, findings₂.filter isActionable ≠ [] →
        write_todo findings₂
            (some (A ++ buildAuditSection (findings.filter isActionable) ++ B))
          = some (A ++ buildAuditSection (findings₂.filter isActionable) ++ B)) ∧
      write_todo findings
          (some (A ++ buildAuditSection (findings.filter isActionable) ++ B))
        = some (A ++ buildAuditSection (findings.filter isActionable) ++ B) ∧
      ∀ f ∈ findings.filter isActionable,
        f.severity = Severity.error ∨ f.severity = Severity.warning := by
  obtain ⟨M, hsec, hM⟩ := buildAuditSection_shape (findings.filter isActionable)
    (fun f hf => hclean f (List.mem_of_mem_filter hf))
  have hEmpty : (findings.filter isActionable).isEmpty = false := by
    cases h : findings.filter isActionable
    · exact absurd h hne
    · rfl
  have hsev : ∀ f ∈ findings.filter isActionable,
      f.severity = Severity.error ∨ f.severity = Severity.warning := by
    intro f hf
    have hact := List.of_mem_filter hf
    cases h : f.severity with
    | error => exact Or.inl rfl
    | warning => exact Or.inr rfl
    | info => simp [isActionable, h] at hact
  have key : ∀ A B : Str, '<' ∉ A → '<' ∉ B →
      countSub AUDIT_START
        (A ++ buildAuditSection (findings.filter isActionable) ++ B) = 1 ∧
      countSub AUDIT_END
        (A ++ buildAuditSection (findings.filter isActionable) ++ B) = 1 ∧
      ∀ findings₂ : List AuditFinding, findings₂.filter isActionable ≠ [] →
        write_todo findings₂
            (some (A ++ buildAuditSection (findings.filter isActionable) ++ B))
          = some (A ++ buildAuditSection (findings₂.filter isActionable) ++ B) := by
    intro A B hA hB
    refine ⟨?_, ?_, ?_⟩
    · rw [hsec]; exact (countSub_sectioned A M B hA hM hB).1
    · rw [hsec]; exact (countSub_sectioned A M B hA hM hB).2
    · intro f₂ h₂
      have hE₂ : (f₂.filter isActionable).isEmpty = false := by
        cases h : f₂.filter isActionable
        · exact absurd h h₂
        · rfl
      simp only [write_todo, hE₂, Bool.false_eq_true, if_false]
      rw [hsec, replaceAuditSection_sectioned A M B _ hA hM hB]
  cases existing with
  | none =>
    refine ⟨s "# Project TODO\n\n", s "\n", ?_,
      (key _ _ (by decide) (by decide)).1,
      (key _ _ (by decide) (by decide)).2.1,
      (key _ _ (by decide) (by decide)).2.2,
      (key _ _ (by decide) (by decide)).2.2 findings hne, hsev⟩
    simp only [write_todo, hEmpty, Bool.false_eq_true, if_false]
  | some c₀ =>
    have hc₀ := hex c₀ rfl
    have hidx : indexOfSub AUDIT_START c₀ = none :=
      indexOfSub_clean_none (by decide) c₀ hc₀
    have hA : '<' ∉ rstripWs c₀ ++ s "\n\n" := by
      intro h
      rcases List.mem_append.mp h with h1 | h1
      · exact hc₀ (mem_rstripWs h1)
      · exact absurd h1 (by decide)
    refine ⟨rstripWs c₀ ++ s "\n\n", s "\n", ?_,
      (key _ _ hA (by decide)).1,
      (key _ _ hA (by decide)).2.1,
      (key _ _ hA (by decide)).2.2,
      (key _ _ hA (by decide)).2.2 findings hne, hsev⟩
    simp only [write_todo, hEmpty, Bool.false_eq_true, if_false]
    simp only [replaceAuditSection, hidx]

/-- Witness for C3 at a concrete clean finding and an absent initial
file: the write succeeds, the rewrite reproduces it verbatim, and the
content holds exactly one start and one end marker. -/
theorem c3_todo_write_idempotent_witness :
    ∃ c₁ : Str, write_todo [c3good] none = some c₁ ∧
      write_todo [c3good] (some c₁) = some c₁ ∧
      countSub AUDIT_START c₁ = 1 ∧ countSub AUDIT_END c₁ = 1 := by
  obtain ⟨A, B, h1, hcS, hcE, hall, hid, hsv⟩ :=
    c3_todo_write_idempotent [c3good] none (by decide) (by decide)
      (fun c h => nomatch h)
  exact ⟨_, h1, hid, hcS, hcE⟩

/-- C2: against a project directory with no recognized input files
(every discovery helper returns the empty list, every parser therefore
produces nothing), each of the six auditors' `run()` returns normally
with only its "nothing found" INFO/WARNING findings: the endpoint
auditor one INFO, the coverage auditor one WARNING, the type-safety
auditor one INFO, and the quality, dependency and vulnerability auditors
no findings at all — never an ERROR, never an exception path. -/
theorem c2_empty_project_safety (pp baseUrl : Str) (live fix : Bool)
    (probe : Str → ProbeOutcome)
    (pipAudit : Str → Option (List PipAuditEntry))
    (npmAudit : Str → Option (List (Str × NpmVulnInfo)))
    (osv : Str → Str → Str → Option (List OsvVuln))
    (loads : Str → Option Json)
    (routeFiles testFiles qualityFiles depFiles : List SrcFile)
    (pySchemas : List PydanticSchema) (tsIfaces : List TSInterface)
    (zods : List ZodSchema)
    (hR : routeFiles = []) (hT : testFiles = []) (hQ : qualityFiles = [])
    (hD : depFiles = []) (hS : pySchemas = []) :
    endpointRun pp live baseUrl probe routeFiles =
      [{ category := s "endpoints", severity := .info, file := s ".", line := 0,
         message := s "No route definitions found",
         suggestion := s "Routes are expected in api.py, routes.py, controllers.py, etc." }] ∧
    coverageRun pp testFiles pySchemas =
      [{ category := s "tests", severity := .warning, file := s ".", line := 0,
         message := s "No test files found",
         suggestion := s "Add tests in tests/ (pytest) or __tests__/ (vitest)" }] ∧
    typesRun pp pySchemas tsIfaces zods =
      [{ category := s "types", severity := .info, file := s ".", line := 0,
         message := s "No Pydantic schemas found",
         suggestion := s "Define schemas in */schemas/*.py" }] ∧
    qualityRun pp fix qualityFiles = ([], 0) ∧
    dependencyRun pp depFiles loads = [] ∧
    vulnerabilityRun pp depFiles pipAudit npmAudit osv loads = [] ∧
    ∀ f, (f ∈ endpointRun pp live baseUrl probe routeFiles ∨
          f ∈ coverageRun pp testFiles pySchemas ∨
          f ∈ typesRun pp pySchemas tsIfaces zods ∨
          f ∈ (qualityRun pp fix qualityFiles).1 ∨
          f ∈ dependencyRun pp depFiles loads ∨
          f ∈ vulnerabilityRun pp depFiles pipAudit npmAudit osv loads) →
      f.severity = Severity.info ∨ f.severity = Severity.warning := by
  subst hR hT hQ hD hS
  refine ⟨rfl, rfl, rfl, rfl, rfl, rfl, ?_⟩
  intro f hf
  rcases hf with h | h | h | h | h | h
  · simp only [endpointRun, List.flatMap_nil, List.isEmpty_nil, if_true,
      List.mem_singleton] at h
    subst h
    left; rfl
  · simp only [coverageRun, List.isEmpty_nil, if_true, List.mem_singleton] at h
    subst h
    right; rfl
  · simp only [typesRun, List.isEmpty_nil, if_true, List.mem_singleton] at h
    subst h
    left; rfl
  · simp [qualityRun] at h
  · simp [dependencyRun, crossManifestConflicts] at h
  · simp [vulnerabilityRun] at h

/-- Witness for C2 at the fully concrete empty project. -/
theorem c2_empty_project_safety_witness :
    endpointRun (s ".") false (s "http://localhost:8000") (fun _ => .unreachable) [] =
      [{ category := s "endpoints", severity := .info, file := s ".", line := 0,
         message := s "No route definitions found",
         suggestion := s "Routes are expected in api.py, routes.py, controllers.py, etc." }] ∧
    dependencyRun (s ".") [] (fun _ => none) = [] :=
  ⟨(c2_empty_project_safety (s ".") (s "http://localhost:8000") false false
      (fun _ => .unreachable) (fun _ => none) (fun _ => none) (fun _ _ _ => none)
      (fun _ => none) [] [] [] [] [] [] [] rfl rfl rfl rfl rfl).1,
   (c2_empty_project_safety (s ".") (s "http://localhost:8000") false false
      (fun _ => .unreachable) (fun _ => none) (fun _ => none) (fun _ _ _ => none)
      (fun _ => none) [] [] [] [] [] [] [] rfl rfl rfl rfl rfl).2.2.2.2.1⟩

end MattStack
